import Mathlib

/-!
Verification of the MCell4 diffuse-and-react kernel (src4) against its
natural-language specification.

The development shallowly embeds the kernel's numeric code over exact
rationals (`ℚ`); C++ `double` arithmetic is modelled by real (here rational)
arithmetic, which is the reading used throughout the specification.  Functions
are translated from `src4/collision_utils.inc`, `src4/reaction_utils.inc`
(second copy, namespace `RxUtil`), `src4/geometry_utils.inc`,
`src4/diffusion_utils.inc` and `src4/diffuse_react_event.cpp`.  Fatal
`mcell_internal_error` / `mcell_error` calls are modelled by an `Option`
result (`none` = the program aborts).  The shared random-number generator is
modelled as two oracle streams (32-bit uniforms and uniform doubles) together
with read positions, so that "consumes a draw" is the statement that a read
position advanced.
-/

/-- Modelled from the spec: `defines.h` is not among the sources; `EPS` is the
reference absolute tolerance used by the kernel (the reference value of the
double-precision code base). -/
def EPS : ℚ := 1 / 1000000000000

/-- Modelled from the spec: `defines.h` is not among the sources; `EPS_C` is
the tolerance used for collision disambiguation. -/
def EPS_C : ℚ := 1 / 1000000000000

/-- Modelled from the spec: `defines.h` is not among the sources;
`TIME_FOREVER` is the reference "never happens" time constant. -/
def TIME_FOREVER : ℚ := 10 ^ 20

/-- Modelled from the spec: `distinguishable_f` of `defines.h` is not among
the sources; two doubles are distinguishable when their difference exceeds
`eps` scaled by the larger magnitude (clamped below by 1). -/
def distinguishable_f (a b eps : ℚ) : Bool :=
  |a - b| > eps * max 1 (max |a| |b|)

-- 3D vector of doubles (`vec3_t` of `defines.h`).
structure vec3_t where
  x : ℚ
  y : ℚ
  z : ℚ
deriving DecidableEq, Repr

-- 2D vector of doubles (`vec2_t` of `defines.h`).
structure vec2_t where
  u : ℚ
  v : ℚ
deriving DecidableEq, Repr

def v3add (a b : vec3_t) : vec3_t := ⟨a.x + b.x, a.y + b.y, a.z + b.z⟩

def v3sub (a b : vec3_t) : vec3_t := ⟨a.x - b.x, a.y - b.y, a.z - b.z⟩

def v3smul (c : ℚ) (a : vec3_t) : vec3_t := ⟨c * a.x, c * a.y, c * a.z⟩

def dot3 (a b : vec3_t) : ℚ := a.x * b.x + a.y * b.y + a.z * b.z

def cross3 (a b : vec3_t) : vec3_t :=
  ⟨a.y * b.z - a.z * b.y, a.z * b.x - a.x * b.z, a.x * b.y - a.y * b.x⟩

def v2add (a b : vec2_t) : vec2_t := ⟨a.u + b.u, a.v + b.v⟩

def v2sub (a b : vec2_t) : vec2_t := ⟨a.u - b.u, a.v - b.v⟩

def v2smul (c : ℚ) (a : vec2_t) : vec2_t := ⟨c * a.u, c * a.v⟩

/-- `max3d` of `defines.h` (missing from the sources, forced by its use):
largest component of a vector. -/
def max3d (a : vec3_t) : ℚ := max a.x (max a.y a.z)

def v3abs (a : vec3_t) : vec3_t := ⟨|a.x|, |a.y|, |a.z|⟩

/-- `abs_max_2vec` of `defines.h` (missing from the sources, forced by its
use): largest absolute component over two vectors. -/
def abs_max_2vec (p v : vec3_t) : ℚ := max (max3d (v3abs p)) (max3d (v3abs v))

-- Shared RNG state (`rng_state` of rng.h), modelled as oracle streams with
-- read positions; `rng_uint` / `rng_dbl` read the current element and advance.
structure rng_state where
  uints : ℕ → ℕ
  uidx : ℕ
  dbls : ℕ → ℚ
  didx : ℕ

def rng_uint (s : rng_state) : ℕ × rng_state :=
  (s.uints s.uidx, { s with uidx := s.uidx + 1 })

def rng_dbl (s : rng_state) : ℚ × rng_state :=
  (s.dbls s.didx, { s with didx := s.didx + 1 })

-- ---------------------------------------------------------------------------
-- Molecules and the volume-volume collision test (collision_utils.inc)
-- ---------------------------------------------------------------------------

-- Volume molecule data used by `collide_mol` (fields of `Molecule`).
structure Molecule where
  id : ℕ
  pos : vec3_t
  defunct : Bool
deriving DecidableEq, Repr

/-- `collide_mol` of `src4/collision_utils.inc` (lines 388-436): interaction
disk test of a diffusing molecule against a target.  Returns the relative
collision time and collision position, or `none` for a miss. -/
def collide_mol (diffused_vm : Molecule) (displacement : vec3_t)
    (colliding_vm : Molecule) (rx_radius_3d : ℚ) : Option (ℚ × vec3_t) :=
  let pos := colliding_vm.pos
  let dir := v3sub pos diffused_vm.pos
  let d := dot3 dir displacement
  if d < 0 then none
  else
    let movelen2 := dot3 displacement displacement
    if d > movelen2 then none
    else
      let dirlen2 := dot3 dir dir
      let sigma2 := rx_radius_3d * rx_radius_3d
      if movelen2 * dirlen2 - d * d > movelen2 * sigma2 then none
      else if diffused_vm.id = colliding_vm.id then none
      else if colliding_vm.defunct then none
      else
        let rel_collision_time := d / movelen2
        some (rel_collision_time,
              v3add diffused_vm.pos (v3smul rel_collision_time displacement))

/-- Claim C3: `collide_mol` reports a collision iff, with `r = t.pos - m.pos`,
`r·d ≥ 0`, `r·d ≤ |d|²`, `|d|²|r|² - (r·d)² ≤ |d|²σ²`, the ids differ and the
target is not defunct; and then the relative collision time is `(r·d)/|d|²`
and the collision point is `m.pos + τ·d`. -/
theorem C3_collide_mol_disk_test (m t : Molecule) (d : vec3_t) (σ : ℚ) :
    ((collide_mol m d t σ).isSome ↔
      (0 ≤ dot3 (v3sub t.pos m.pos) d ∧
       dot3 (v3sub t.pos m.pos) d ≤ dot3 d d ∧
       dot3 d d * dot3 (v3sub t.pos m.pos) (v3sub t.pos m.pos) -
           dot3 (v3sub t.pos m.pos) d * dot3 (v3sub t.pos m.pos) d ≤
         dot3 d d * (σ * σ) ∧
       t.id ≠ m.id ∧ t.defunct = false))
    ∧ (∀ τ cp, collide_mol m d t σ = some (τ, cp) →
        τ = dot3 (v3sub t.pos m.pos) d / dot3 d d ∧
        cp = v3add m.pos (v3smul τ d)) := by
  constructor
  · simp only [collide_mol]
    split_ifs with h1 h2 h3 h4 h5
    · simp only [Option.isSome_none, Bool.false_eq_true, false_iff]
      rintro ⟨hc, -⟩
      exact absurd hc (not_le.mpr h1)
    · simp only [Option.isSome_none, Bool.false_eq_true, false_iff]
      rintro ⟨-, hc, -⟩
      exact absurd hc (not_le.mpr h2)
    · simp only [Option.isSome_none, Bool.false_eq_true, false_iff]
      rintro ⟨-, -, hc, -⟩
      exact absurd hc (not_le.mpr h3)
    · simp only [Option.isSome_none, Bool.false_eq_true, false_iff]
      rintro ⟨-, -, -, hc, -⟩
      exact hc h4.symm
    · simp only [Option.isSome_none, Bool.false_eq_true, false_iff]
      rintro ⟨-, -, -, -, hc⟩
      simp [hc] at h5
    · simp only [Option.isSome_some, true_iff]
      refine ⟨not_lt.mp h1, not_lt.mp h2, not_lt.mp h3, fun he => h4 he.symm, ?_⟩
      simpa using h5
  · intro τ cp h
    simp only [collide_mol] at h
    split_ifs at h
    simp only [Option.some.injEq, Prod.mk.injEq] at h
    obtain ⟨h1, h2⟩ := h
    subst h1
    exact ⟨rfl, h2.symm⟩

/-- Witness for C3 at a concrete collision. -/
theorem C3_witness :
    (collide_mol ⟨0, ⟨0, 0, 0⟩, false⟩ ⟨2, 0, 0⟩ ⟨1, ⟨1, 0, 0⟩, false⟩ (1/2)).isSome := by
  refine (C3_collide_mol_disk_test ⟨0, ⟨0, 0, 0⟩, false⟩ ⟨1, ⟨1, 0, 0⟩, false⟩
    ⟨2, 0, 0⟩ (1/2)).1.mpr ?_
  norm_num [dot3, v3sub]

-- ---------------------------------------------------------------------------
-- Ray-triangle wall collision (collision_utils.inc)
-- ---------------------------------------------------------------------------

-- Wall data used by `collide_wall` and `reflect_or_periodic_bc`.  The
-- partition indirection `p.get_geometry_vertex(face.vertex_indices[i])` is
-- flattened into the three vertex fields.
structure Wall where
  vert0 : vec3_t
  vert1 : vec3_t
  vert2 : vec3_t
  normal : vec3_t
  distance_to_origin : ℚ
  unit_u : vec3_t
  unit_v : vec3_t
  uv_vert1_u : ℚ
  uv_vert2 : vec2_t
deriving DecidableEq, Repr

-- `CollisionType` values returned by `collide_wall` (defines.h tags).
inductive CollisionType where
  | WALL_MISS
  | WALL_FRONT
  | WALL_BACK
  | WALL_REDO
deriving DecidableEq, Repr

-- Result of `collide_wall`: outcome tag, (possibly perturbed) movement
-- vector, RNG state after the call, and the collision time/position outputs
-- (left at 0 on the early misses, where the C++ code does not write them).
structure collide_wall_result where
  ctype : CollisionType
  move : vec3_t
  rng : rng_state
  collision_time : ℚ
  collision_pos : vec3_t

/-- `jump_away_line` of `src4/collision_utils.inc` (lines 479-505): perturb
the movement vector away from the edge `A`-`B` with a random sign.  The C++
code normalizes `e = B - A` and uses `f = n × ê`; the edge length `|B - A|`
cancels between `f` and `max3d(|f|)`, so over `ℚ` we use the algebraically
equal form with the unnormalized `g = n × (B - A)`. -/
def jump_away_line (p : vec3_t) (k : ℚ) (A B n : vec3_t) (rng : rng_state)
    (v : vec3_t) : vec3_t × rng_state :=
  let g := cross3 n (v3sub B A)
  let t0 := EPS * (abs_max_2vec p v + 1) / (k * max3d (v3abs g))
  let (bits, rng') := rng_uint rng
  let tiny := if bits % 2 = 0 then -t0 else t0
  (v3sub v (v3smul tiny g), rng')

/-- `collide_wall` of `src4/collision_utils.inc` (lines 530-676): ray-triangle
collision test with edge/corner disambiguation.  `update_move = true` allows
perturbing the movement vector (returning `WALL_REDO`); with
`update_move = false` ambiguous cases are reported as misses. -/
def collide_wall (pos : vec3_t) (face : Wall) (rng : rng_state)
    (update_move : Bool) (move : vec3_t) : collide_wall_result :=
  let dp := dot3 face.normal pos
  let dv := dot3 face.normal move
  let dd := dp - face.distance_to_origin
  let early_miss :=
    if dd > 0 then
      let d_eps := if dd < EPS then dd / 2 else EPS
      dd + dv > d_eps
    else
      let d_eps := if dd > -EPS then dd / 2 else -EPS
      dd < 0 ∧ dd + dv < d_eps
  if early_miss then ⟨CollisionType.WALL_MISS, move, rng, 0, ⟨0, 0, 0⟩⟩
  else if dd = 0 then
    -- start beside the plane
    if dv ≠ 0 then ⟨CollisionType.WALL_MISS, move, rng, 0, ⟨0, 0, 0⟩⟩
    else if update_move then
      let a0 := (abs_max_2vec pos move + 1) * EPS_C
      let (bits, rng') := rng_uint rng
      let a := if bits % 2 = 0 then -a0 else a0
      -- `dd == 0.0` holds here, so the code subtracts `a·normal` from `move`
      ⟨CollisionType.WALL_REDO, v3sub move (v3smul a face.normal), rng', 0, ⟨0, 0, 0⟩⟩
    else ⟨CollisionType.WALL_MISS, move, rng, 0, ⟨0, 0, 0⟩⟩
  else
    let a := -dd / dv
    let collision_pos := v3add pos (v3smul a move)
    let lpos := v3sub collision_pos face.vert0
    let b := dot3 lpos face.unit_u
    let c0 := dot3 lpos face.unit_v
    let c := if face.uv_vert2.v < 0 then -c0 else c0
    let f := if face.uv_vert2.v < 0 then -face.uv_vert2.v else face.uv_vert2.v
    if c > 0 then
      let g := b * f
      let h := c * face.uv_vert2.u
      if g > h then
        if c * face.uv_vert1_u + g < h + face.uv_vert1_u * face.uv_vert2.v then
          ⟨if dv > 0 then CollisionType.WALL_BACK else CollisionType.WALL_FRONT,
           move, rng, a, collision_pos⟩
        else if ¬ distinguishable_f (c * face.uv_vert1_u + g)
            (h + face.uv_vert1_u * face.uv_vert2.v) EPS_C then
          if update_move then
            let (m', r') := jump_away_line pos a face.vert1 face.vert2 face.normal rng move
            ⟨CollisionType.WALL_REDO, m', r', a, collision_pos⟩
          else ⟨CollisionType.WALL_MISS, move, rng, a, collision_pos⟩
        else ⟨CollisionType.WALL_MISS, move, rng, a, collision_pos⟩
      else if ¬ distinguishable_f g h EPS then
        if update_move then
          let (m', r') := jump_away_line pos a face.vert2 face.vert0 face.normal rng move
          ⟨CollisionType.WALL_REDO, m', r', a, collision_pos⟩
        else ⟨CollisionType.WALL_MISS, move, rng, a, collision_pos⟩
      else ⟨CollisionType.WALL_MISS, move, rng, a, collision_pos⟩
    else if ¬ distinguishable_f c 0 EPS then
      if update_move then
        let (m', r') := jump_away_line pos a face.vert0 face.vert1 face.normal rng move
        ⟨CollisionType.WALL_REDO, m', r', a, collision_pos⟩
      else ⟨CollisionType.WALL_MISS, move, rng, a, collision_pos⟩
    else ⟨CollisionType.WALL_MISS, move, rng, a, collision_pos⟩

-- A fixed "unused" RNG state, as constructed locally by `collide_wall_test`.
def unused_rng_state : rng_state := ⟨fun _ => 0, 0, fun _ => 0, 0⟩

/-- `collide_wall_test` of `src4/collision_utils.inc` (lines 763-805): the
non-perturbing wall test used by region-inside checks and dynamic-geometry
detection; calls `collide_wall` with `update_move = false` on a throwaway RNG
state.  A `WALL_REDO` outcome runs `mcell_error`, modelled as `none`. -/
def collide_wall_test (pos : vec3_t) (face : Wall) (move : vec3_t) : Option Bool :=
  match (collide_wall pos face unused_rng_state false move).ctype with
  | CollisionType.WALL_MISS => some false
  | CollisionType.WALL_FRONT => some true
  | CollisionType.WALL_BACK => some true
  | CollisionType.WALL_REDO => none

/-- Hit-counting loop of `is_point_inside_region` over the region's walls. -/
def count_region_hits (pos move : vec3_t) : List Wall → ℕ → Option ℕ
  | [], n => some n
  | w :: ws, n =>
    match collide_wall_test pos w move with
    | none => none
    | some true => count_region_hits pos move ws (n + 1)
    | some false => count_region_hits pos move ws n

/-- `is_point_inside_region` of `src4/collision_utils.inc` (lines 1125-1144):
cast a ray of length `partition_edge_length` along the z axis and count wall
hits of the region; inside iff the count is odd.  The region is represented
by the list of its walls (`reg.walls_and_edges` keys resolved through
`p.get_wall`). -/
def is_point_inside_region (walls : List Wall) (pos : vec3_t)
    (partition_edge_length : ℚ) : Option Bool :=
  let move : vec3_t := ⟨0, 0, partition_edge_length⟩
  match count_region_hits pos move walls 0 with
  | none => none
  | some num_hits => some (decide (num_hits % 2 = 1))

/-- `reflect_or_periodic_bc` of `src4/collision_utils.inc` (lines 1161-1189),
restricted to the non-periodic branch that is present there: move the molecule
to the collision point, scale the remaining time step by `1 - t`, and reflect
the displacement.  Returns (new position, new remaining time step, new
displacement). -/
def reflect_or_periodic_bc (collision_time : ℚ) (collision_pos : vec3_t)
    (w : Wall) (displacement : vec3_t) (remaining_time_step : ℚ) :
    vec3_t × ℚ × vec3_t :=
  let reflect_t := collision_time
  let reflect_factor := -2 * dot3 displacement w.normal
  (collision_pos,
   remaining_time_step * (1 - reflect_t),
   v3smul (1 - reflect_t) (v3add displacement (v3smul reflect_factor w.normal)))


-- With `update_move = false` every `WALL_REDO` branch of `collide_wall` is
-- cut off, and neither the RNG nor the movement vector is touched.
set_option maxHeartbeats 1000000 in
theorem collide_wall_no_update_no_redo (pos : vec3_t) (face : Wall)
    (rng : rng_state) (move : vec3_t) :
    (collide_wall pos face rng false move).ctype ≠ CollisionType.WALL_REDO ∧
    (collide_wall pos face rng false move).rng = rng ∧
    (collide_wall pos face rng false move).move = move := by
  unfold collide_wall
  simp only [Bool.false_eq_true, if_false]
  split_ifs <;> exact ⟨by simp, rfl, rfl⟩


-- Hit outcome of the non-perturbing ray test against one wall: a front or
-- back hit of `collide_wall` with `update_move = false`.
def wall_ray_hit (pos move : vec3_t) (w : Wall) : Bool :=
  match (collide_wall pos w unused_rng_state false move).ctype with
  | CollisionType.WALL_FRONT => true
  | CollisionType.WALL_BACK => true
  | _ => false

theorem collide_wall_test_eq_hit (pos : vec3_t) (face : Wall) (move : vec3_t) :
    collide_wall_test pos face move = some (wall_ray_hit pos move face) := by
  have h := (collide_wall_no_update_no_redo pos face unused_rng_state move).1
  cases hc : (collide_wall pos face unused_rng_state false move).ctype
  case WALL_MISS => simp [collide_wall_test, wall_ray_hit, hc]
  case WALL_FRONT => simp [collide_wall_test, wall_ray_hit, hc]
  case WALL_BACK => simp [collide_wall_test, wall_ray_hit, hc]
  case WALL_REDO => exact absurd hc h

theorem count_region_hits_eq (pos move : vec3_t) (walls : List Wall) (n : ℕ) :
    count_region_hits pos move walls n =
      some (n + walls.countP (wall_ray_hit pos move)) := by
  induction walls generalizing n with
  | nil => simp [count_region_hits]
  | cons w ws ih =>
    rw [count_region_hits, collide_wall_test_eq_hit]
    cases hw : wall_ray_hit pos move w
    · simp [hw, ih, List.countP_cons]
    · simp [hw, ih, List.countP_cons]
      omega

/-- Claim C5: `is_point_inside_region` returns true iff the axis-parallel ray
of length `partition_edge_length` cast from the point, tested against every
wall of the region with the non-perturbing wall test (`update_move = false`,
so `WALL_REDO` is impossible), hits an odd number of walls.  The equation also
shows the function never reaches the `mcell_error` abort (`none`). -/
theorem C5_is_point_inside_region_odd_parity (walls : List Wall) (pos : vec3_t)
    (partition_edge_length : ℚ) :
    is_point_inside_region walls pos partition_edge_length =
      some (decide (Odd (walls.countP
        (wall_ray_hit pos ⟨0, 0, partition_edge_length⟩)))) := by
  simp only [is_point_inside_region, count_region_hits_eq, Nat.zero_add]
  congr 1
  exact decide_eq_decide.mpr Nat.odd_iff.symm


-- The wall `z = 1/2` (one of its two triangles) of the specification's
-- reflection scenario.
def plane_wall_z05 : Wall :=
  { vert0 := ⟨0, 0, 1/2⟩, vert1 := ⟨2, 0, 1/2⟩, vert2 := ⟨0, 2, 1/2⟩,
    normal := ⟨0, 0, 1⟩, distance_to_origin := 1/2,
    unit_u := ⟨1, 0, 0⟩, unit_v := ⟨0, 1, 0⟩,
    uv_vert1_u := 2, uv_vert2 := ⟨0, 2⟩ }

/-- Counterexample to claim C1 as stated: at the spec's own scenario (molecule
at (1/2,1/2,2/5), displacement (0,0,1/5), wall z = 1/2, hit at τ = 1/2) the
code's reflected displacement is (0,0,-1/10), while the claimed formula
`(d + 2(d·n)n)(1-τ)` yields (0,0,3/10). -/
theorem C1_counterexample :
    (collide_wall ⟨1/2, 1/2, 2/5⟩ plane_wall_z05 unused_rng_state true
        ⟨0, 0, 1/5⟩).ctype = CollisionType.WALL_BACK ∧
    (collide_wall ⟨1/2, 1/2, 2/5⟩ plane_wall_z05 unused_rng_state true
        ⟨0, 0, 1/5⟩).collision_time = 1/2 ∧
    (collide_wall ⟨1/2, 1/2, 2/5⟩ plane_wall_z05 unused_rng_state true
        ⟨0, 0, 1/5⟩).collision_pos = ⟨1/2, 1/2, 1/2⟩ ∧
    (reflect_or_periodic_bc (1/2) ⟨1/2, 1/2, 1/2⟩ plane_wall_z05
        ⟨0, 0, 1/5⟩ 1).2.2 = ⟨0, 0, -(1/10)⟩ ∧
    (⟨0, 0, -(1/10)⟩ : vec3_t) ≠
      v3smul (1 - 1/2) (v3add ⟨0, 0, 1/5⟩
        (v3smul (2 * dot3 ⟨0, 0, 1/5⟩ plane_wall_z05.normal)
          plane_wall_z05.normal)) := by
  refine ⟨?_, ?_, ?_, ?_, ?_⟩ <;>
    norm_num [collide_wall, reflect_or_periodic_bc, plane_wall_z05, dot3,
      v3add, v3sub, v3smul, EPS, EPS_C, distinguishable_f, vec3_t.mk.injEq]

/-- Claim C1 (amended): on a non-transparent wall hit at relative time τ the
molecule is moved to the hit point, the remaining time step is multiplied by
`1 - τ`, and the displacement for the remainder of the step equals
`(d - 2(d·n)n)·(1 - τ)` (the sign of the reflection term is corrected);
in the spec scenario the hit is at τ = 1/2 and the final z coordinate is 2/5. -/
theorem C1_amended_reflection :
    (∀ (ct : ℚ) (cp : vec3_t) (w : Wall) (d : vec3_t) (r : ℚ),
      reflect_or_periodic_bc ct cp w d r =
        (cp, r * (1 - ct),
         v3smul (1 - ct) (v3sub d (v3smul (2 * dot3 d w.normal) w.normal)))) ∧
    ((collide_wall ⟨1/2, 1/2, 2/5⟩ plane_wall_z05 unused_rng_state true
        ⟨0, 0, 1/5⟩).ctype = CollisionType.WALL_BACK ∧
     (collide_wall ⟨1/2, 1/2, 2/5⟩ plane_wall_z05 unused_rng_state true
        ⟨0, 0, 1/5⟩).collision_time = 1/2 ∧
     (reflect_or_periodic_bc (1/2) ⟨1/2, 1/2, 1/2⟩ plane_wall_z05
        ⟨0, 0, 1/5⟩ 1).2.1 = 1/2 ∧
     (v3add (reflect_or_periodic_bc (1/2) ⟨1/2, 1/2, 1/2⟩ plane_wall_z05
        ⟨0, 0, 1/5⟩ 1).1
       (reflect_or_periodic_bc (1/2) ⟨1/2, 1/2, 1/2⟩ plane_wall_z05
        ⟨0, 0, 1/5⟩ 1).2.2).z = 2/5) := by
  constructor
  · intro ct cp w d r
    unfold reflect_or_periodic_bc
    refine congrArg (Prod.mk cp) (congrArg (Prod.mk (r * (1 - ct))) ?_)
    show v3smul (1 - ct) (v3add d (v3smul (-2 * dot3 d w.normal) w.normal)) =
      v3smul (1 - ct) (v3sub d (v3smul (2 * dot3 d w.normal) w.normal))
    simp only [v3smul, v3add, v3sub, dot3, vec3_t.mk.injEq]
    refine ⟨?_, ?_, ?_⟩ <;> ring
  · refine ⟨?_, ?_, ?_, ?_⟩ <;>
      norm_num [collide_wall, reflect_or_periodic_bc, plane_wall_z05, dot3,
        v3add, v3sub, v3smul, EPS, EPS_C, distinguishable_f, vec3_t.mk.injEq]

-- ---------------------------------------------------------------------------
-- Wall-collision collection for one ray (collision_utils.inc)
-- ---------------------------------------------------------------------------

-- One collected wall collision (`Collision` with a wall target).
structure WallCollision where
  wall_index : ℕ
  ctype : CollisionType
  time : ℚ
  pos : vec3_t
deriving DecidableEq, Repr

/-- `is_immediate_collision` of `src4/collision_utils.inc` (line 679). -/
def is_immediate_collision (time : ℚ) : Bool := time < EPS

/-- Iteration of `collect_wall_collisions` of `src4/collision_utils.inc`
(lines 684-758) over the subpartition's wall set, modelled as a list of
(wall index, wall) pairs in iteration order.  On `WALL_REDO` the C++ code
clears the collision list and assigns `it = wall_indices.begin()`, after which
the loop's `it++` advances it, so the rescan resumes at position 1 (the second
wall).  `closest` tracks `closest_hit_pos` (`none` = still uninitialized;
`closest_hit_time` itself is never updated by the code and stays
`TIME_FOREVER`).  The fuel argument bounds the number of executed iterations
(`none` = still running); the C++ loop has no such bound. -/
def collect_wall_collisions_loop (pos : vec3_t) (walls : List (ℕ × Wall))
    (previous_reflected_wall : Option ℕ) :
    ℕ → ℕ → vec3_t → rng_state → List WallCollision → Option vec3_t →
    Option (List WallCollision × vec3_t × rng_state × Option vec3_t)
  | 0, _, _, _, _, _ => none
  | Nat.succ fuel, k, move, rng, acc, closest =>
    match walls.get? k with
    | none => some (acc, move, rng, closest)
    | some (wall_index, w) =>
      if previous_reflected_wall = some wall_index then
        collect_wall_collisions_loop pos walls previous_reflected_wall
          fuel (k + 1) move rng acc closest
      else
        let res := collide_wall pos w rng true move
        match res.ctype with
        | CollisionType.WALL_REDO =>
          collect_wall_collisions_loop pos walls previous_reflected_wall
            fuel 1 res.move res.rng [] closest
        | CollisionType.WALL_MISS =>
          collect_wall_collisions_loop pos walls previous_reflected_wall
            fuel (k + 1) res.move res.rng acc closest
        | ct =>
          let closest2 :=
            if res.collision_time < TIME_FOREVER ∧
                ¬ is_immediate_collision res.collision_time then
              some res.collision_pos
            else closest
          collect_wall_collisions_loop pos walls previous_reflected_wall
            fuel (k + 1) res.move res.rng
            (acc ++ [⟨wall_index, ct, res.collision_time, res.collision_pos⟩]) closest2

/-- `collect_wall_collisions` of `src4/collision_utils.inc` (lines 684-758):
returns the collected collisions, the (possibly perturbed) displacement, the
RNG state, and `closest_hit_pos` if it was written. -/
def collect_wall_collisions (pos : vec3_t) (walls : List (ℕ × Wall))
    (previous_reflected_wall : Option ℕ) (move : vec3_t) (rng : rng_state)
    (fuel : ℕ) :
    Option (List WallCollision × vec3_t × rng_state × Option vec3_t) :=
  collect_wall_collisions_loop pos walls previous_reflected_wall
    fuel 0 move rng [] none

-- The wall `z = 0` used by the REDO scenario: the ray from (1,1,1) along
-- (0,0,-2) hits exactly the edge point (1,1,0) of this triangle.
def tri_wall_z0 : Wall :=
  { vert0 := ⟨0, 0, 0⟩, vert1 := ⟨2, 0, 0⟩, vert2 := ⟨0, 2, 0⟩,
    normal := ⟨0, 0, 1⟩, distance_to_origin := 0,
    unit_u := ⟨1, 0, 0⟩, unit_v := ⟨0, 1, 0⟩,
    uv_vert1_u := 2, uv_vert2 := ⟨0, 2⟩ }

-- An RNG whose streams are all zero.
def rng_zero : rng_state := ⟨fun _ => 0, 0, fun _ => 0, 0⟩

/-- Claim C7 (code bug): for a subpartition holding the single wall
`tri_wall_z0`, the ray from (1,1,1) along (0,0,-2) hits the triangle's edge,
`collide_wall` returns `WALL_REDO` (consuming exactly one RNG draw and
perturbing the displacement), and the collection loop then terminates with an
empty collision list: because the rescan restarts at the second position, the
first (here: only) wall is never re-tested, although re-testing it with the
perturbed displacement yields a front hit. -/
theorem C7_redo_skips_first_wall :
    (collect_wall_collisions ⟨1, 1, 1⟩ [(0, tri_wall_z0)] none ⟨0, 0, -2⟩
        rng_zero 10).map (fun q => q.1) = some [] ∧
    (collect_wall_collisions ⟨1, 1, 1⟩ [(0, tri_wall_z0)] none ⟨0, 0, -2⟩
        rng_zero 10).map (fun q => q.2.1) =
      some ⟨-(6 * EPS), -(6 * EPS), -2⟩ ∧
    (collect_wall_collisions ⟨1, 1, 1⟩ [(0, tri_wall_z0)] none ⟨0, 0, -2⟩
        rng_zero 10).map (fun q => q.2.2.1.uidx) = some 1 ∧
    (collide_wall ⟨1, 1, 1⟩ tri_wall_z0 unused_rng_state true
        ⟨-(6 * EPS), -(6 * EPS), -2⟩).ctype = CollisionType.WALL_FRONT := by
  refine ⟨?_, ?_, ?_, ?_⟩
  all_goals norm_num [collect_wall_collisions, collect_wall_collisions_loop,
    collide_wall, jump_away_line, tri_wall_z0, rng_zero, unused_rng_state,
    rng_uint, dot3, v3add, v3sub, v3smul, cross3, v3abs, max3d,
    abs_max_2vec, EPS, EPS_C, TIME_FOREVER, distinguishable_f,
    is_immediate_collision, vec3_t.mk.injEq]
  all_goals simp
  all_goals exact ⟨_, _, _, ⟨rfl, rfl, rfl⟩, rfl⟩

-- ---------------------------------------------------------------------------
-- Bimolecular reaction gate (reaction_utils.inc, namespace RxUtil)
-- ---------------------------------------------------------------------------

-- Reaction-class data used by the probability gates (`RxnClass`): the
-- no-reaction threshold, the total fixed probability, and the cumulative
-- per-reaction probabilities (`get_num_reactions() == cum_probs.length`).
structure RxnClass where
  min_noreaction_p : ℚ
  max_fixed_p : ℚ
  cum_probs : List ℚ
deriving DecidableEq, Repr

def get_num_reactions (rxn_class : RxnClass) : ℕ := rxn_class.cum_probs.length

/-- `binary_search_double` of `src4/reaction_utils.inc` (lines 702-721). -/
def binary_search_double (A : List ℚ) (mtch : ℚ) (min_idx max_idx : ℕ)
    (mult : ℚ) : ℕ :=
  if max_idx - min_idx > 1 then
    let mid_idx := (max_idx + min_idx) / 2
    if mtch > A.getD mid_idx 0 * mult then
      binary_search_double A mtch mid_idx max_idx mult
    else
      binary_search_double A mtch min_idx mid_idx mult
  else if mtch > A.getD min_idx 0 * mult then max_idx
  else min_idx
termination_by max_idx - min_idx
decreasing_by
  · omega
  · omega

/-- `test_bimolecular` of `src4/reaction_utils.inc` (lines 737-806).  The
`RX_NO_RX` return value is modelled as `none`, a pathway index as `some i`;
the RNG is threaded through (each path consumes exactly one `rng_dbl` draw). -/
def test_bimolecular (rxn_class : RxnClass) (rng : rng_state)
    (scaling local_prob_factor : ℚ) : Option ℕ × rng_state :=
  let min_noreaction_p :=
    if local_prob_factor ≠ 0 then rxn_class.min_noreaction_p * local_prob_factor
    else rxn_class.min_noreaction_p
  let M := get_num_reactions rxn_class - 1
  let pick : ℚ → ℕ := fun p =>
    if local_prob_factor > 0 then
      binary_search_double rxn_class.cum_probs p 0 M local_prob_factor
    else
      binary_search_double rxn_class.cum_probs p 0 M 1
  if min_noreaction_p < scaling then
    let (u, rng2) := rng_dbl rng
    let p := u * scaling
    if p ≥ min_noreaction_p then (none, rng2)
    else (some (pick p), rng2)
  else
    let max_p :=
      if local_prob_factor > 0 then rxn_class.max_fixed_p * local_prob_factor
      else rxn_class.max_fixed_p
    if max_p ≥ scaling then
      let (u, rng2) := rng_dbl rng
      (some (pick (u * max_p)), rng2)
    else
      let (u, rng2) := rng_dbl rng
      let p := u * scaling
      if p ≥ max_p then (none, rng2) else (some (pick p), rng2)

-- The smallest index i with p ≤ cum_probs[i]·mult, or the last index when no
-- index qualifies: the value computed by `binary_search_double` over a sorted
-- array (stated from the spec's description of pathway selection).
def least_or_last (A : List ℚ) (p mult : ℚ) : ℕ :=
  min (A.findIdx fun a => decide (p ≤ a * mult)) (A.length - 1)

theorem findIdx_eq_of (P : ℚ → Bool) (A : List ℚ) :
    ∀ i : ℕ, i < A.length → P (A.getD i 0) = true →
      (∀ j, j < i → P (A.getD j 0) = false) → A.findIdx P = i := by
  induction A with
  | nil => intro i hi; simp at hi
  | cons a l ih =>
    intro i hi hP hb
    match i with
    | 0 =>
      simp only [List.getD_cons_zero] at hP
      simp [List.findIdx_cons, hP]
    | Nat.succ i =>
      have ha : P a = false := by simpa using hb 0 (Nat.succ_pos i)
      have hrec := ih i (by simpa using hi)
        (by simpa [List.getD_cons_succ] using hP)
        (fun j hj => by simpa [List.getD_cons_succ] using hb (j + 1) (by omega))
      simp [List.findIdx_cons, ha, hrec]

theorem findIdx_eq_length_of (P : ℚ → Bool) (A : List ℚ) :
    (∀ j, j < A.length → P (A.getD j 0) = false) → A.findIdx P = A.length := by
  induction A with
  | nil => intro; rfl
  | cons a l ih =>
    intro hb
    have ha : P a = false := by simpa using hb 0 (by simp)
    have hrec := ih (fun j hj => by
      simpa [List.getD_cons_succ] using hb (j + 1) (by simpa using hj))
    simp [List.findIdx_cons, ha, hrec]

theorem sorted_getD_mono {A : List ℚ} (hs : A.Sorted (· ≤ ·)) {i j : ℕ}
    (hij : i ≤ j) (hj : j < A.length) : A.getD i 0 ≤ A.getD j 0 := by
  have hi : i < A.length := lt_of_le_of_lt hij hj
  rw [List.getD_eq_getElem _ _ hi, List.getD_eq_getElem _ _ hj]
  exact List.Sorted.rel_get_of_le hs (by simpa using hij)

theorem bsd_loop_spec (A : List ℚ) (mtch mult : ℚ) (hmult : 0 ≤ mult)
    (hs : A.Sorted (· ≤ ·)) :
    ∀ (k mn mx : ℕ), mx - mn = k → mn ≤ mx → mx ≤ A.length - 1 →
    (mn = 0 ∨ mtch > A.getD mn 0 * mult) →
    (mx = A.length - 1 ∨ mtch ≤ A.getD mx 0 * mult) →
    binary_search_double A mtch mn mx mult = least_or_last A mtch mult := by
  intro k
  induction k using Nat.strong_induction_on with
  | _ k ih =>
  intro mn mx hk hle hmx hmn hmxinv
  unfold binary_search_double
  by_cases hgt : mx - mn > 1
  · rw [if_pos hgt]
    have h1 : mn < (mx + mn) / 2 := by omega
    have h2 : (mx + mn) / 2 < mx := by omega
    by_cases hcmp : mtch > A.getD ((mx + mn) / 2) 0 * mult
    · rw [if_pos hcmp]
      exact ih (mx - (mx + mn) / 2) (by omega) ((mx + mn) / 2) mx rfl
        (le_of_lt h2) hmx (Or.inr hcmp) hmxinv
    · rw [if_neg hcmp]
      exact ih ((mx + mn) / 2 - mn) (by omega) mn ((mx + mn) / 2) rfl
        (le_of_lt h1) (by omega) hmn (Or.inr (not_lt.mp hcmp))
  · rw [if_neg hgt]
    by_cases hP : mtch > A.getD mn 0 * mult
    · rw [if_pos hP]
      by_cases hPmx : mtch ≤ A.getD mx 0 * mult
      · rcases Nat.eq_zero_or_pos A.length with hlen | hlen
        · exfalso
          have hmn0 : mn = 0 := by omega
          have hmx0 : mx = 0 := by omega
          rw [hmn0] at hP; rw [hmx0] at hPmx
          exact absurd hPmx (not_le.mpr hP)
        · have hmxlen : mx < A.length := by omega
          have hmnlen : mn < A.length := by omega
          have hfind : A.findIdx (fun a => decide (mtch ≤ a * mult)) = mx := by
            apply findIdx_eq_of _ _ mx hmxlen (by simpa using hPmx)
            intro j hj
            have hjmn : j ≤ mn := by omega
            have hmono : A.getD j 0 * mult ≤ A.getD mn 0 * mult :=
              mul_le_mul_of_nonneg_right (sorted_getD_mono hs hjmn hmnlen) hmult
            simpa using not_le.mpr (lt_of_le_of_lt hmono hP)
          unfold least_or_last
          rw [hfind]
          omega
      · have hmx_eq : mx = A.length - 1 := hmxinv.resolve_right hPmx
        have hfind : A.findIdx (fun a => decide (mtch ≤ a * mult)) = A.length := by
          apply findIdx_eq_length_of
          intro j hj
          have hjmx : j ≤ mx := by omega
          have hmono : A.getD j 0 * mult ≤ A.getD mx 0 * mult :=
            mul_le_mul_of_nonneg_right (sorted_getD_mono hs hjmx (by omega)) hmult
          simpa using not_le.mpr (lt_of_le_of_lt hmono (not_le.mp hPmx))
        unfold least_or_last
        rw [hfind]
        omega
    · rw [if_neg hP]
      have hmn0 : mn = 0 := hmn.resolve_right hP
      subst hmn0
      cases A with
      | nil => rfl
      | cons a l =>
        have hPa : (fun x => decide (mtch ≤ x * mult)) a = true := by
          simpa [List.getD_cons_zero] using not_lt.mp hP
        unfold least_or_last
        rw [List.findIdx_cons]
        simp only [hPa, cond_true]
        omega

theorem binary_search_double_eq_least (A : List ℚ) (mtch mult : ℚ)
    (hmult : 0 ≤ mult) (hs : A.Sorted (· ≤ ·)) :
    binary_search_double A mtch 0 (A.length - 1) mult =
      least_or_last A mtch mult :=
  bsd_loop_spec A mtch mult hmult hs (A.length - 1) 0 (A.length - 1)
    rfl (Nat.zero_le _) le_rfl (Or.inl rfl) (Or.inl rfl)

/-- Claim C2 (amended): with `f = local_factor` when it is positive and `f = 1`
when it is zero (the claim's `max(1, local_factor)` is corrected to this), and
`U` the single uniform draw consumed by the call: if
`p_min = min_noreaction_p·f < scaling` then `p = U·scaling` and the call
returns no-reaction exactly when `p ≥ p_min`; otherwise with
`p_max = max_fixed_p·f`, if `p_max ≥ scaling` then `p = U·p_max` is used and a
pathway is always chosen, else `p = U·scaling` and the call returns
no-reaction exactly when `p ≥ p_max`; a chosen pathway is the smallest index i
with `p ≤ cum_probs[i]·f`, or the last index when no index qualifies. -/
theorem C2_amended_test_bimolecular (rxn_class : RxnClass) (rng : rng_state)
    (scaling local_prob_factor : ℚ) (hlf : 0 ≤ local_prob_factor)
    (hs : rxn_class.cum_probs.Sorted (· ≤ ·)) :
    (test_bimolecular rxn_class rng scaling local_prob_factor).2.didx =
        rng.didx + 1 ∧
    ((test_bimolecular rxn_class rng scaling local_prob_factor).1 =
      (let U := rng.dbls rng.didx
       let f := if 0 < local_prob_factor then local_prob_factor else 1
       let p_min := rxn_class.min_noreaction_p * f
       let p_max := rxn_class.max_fixed_p * f
       if p_min < scaling then
         if U * scaling ≥ p_min then none
         else some (least_or_last rxn_class.cum_probs (U * scaling) f)
       else if p_max ≥ scaling then
         some (least_or_last rxn_class.cum_probs (U * p_max) f)
       else if U * scaling ≥ p_max then none
       else some (least_or_last rxn_class.cum_probs (U * scaling) f))) := by
  rcases eq_or_lt_of_le hlf with hzero | hpos
  · -- local_prob_factor = 0
    rw [← hzero]
    unfold test_bimolecular
    have hb : ∀ m : ℚ, binary_search_double rxn_class.cum_probs m 0
        (rxn_class.cum_probs.length - 1) 1 =
          least_or_last rxn_class.cum_probs m 1 :=
      fun m => binary_search_double_eq_least _ m 1 (by norm_num) hs
    simp only [ne_eq, eq_self_iff_true, not_true_eq_false, if_false,
      lt_self_iff_false, ite_false, get_num_reactions, mul_one, rng_dbl]
    constructor
    · split_ifs <;> rfl
    · simp only [hb]
      split_ifs <;> rfl
  · -- 0 < local_prob_factor
    unfold test_bimolecular
    have h1 : local_prob_factor ≠ 0 := ne_of_gt hpos
    have hb : ∀ m : ℚ, binary_search_double rxn_class.cum_probs m 0
        (rxn_class.cum_probs.length - 1) local_prob_factor =
          least_or_last rxn_class.cum_probs m local_prob_factor :=
      fun m => binary_search_double_eq_least _ m _ (le_of_lt hpos) hs
    simp only [h1, hpos, ne_eq, not_false_eq_true, if_true, ite_true,
      get_num_reactions, rng_dbl]
    constructor
    · split_ifs <;> rfl
    · simp only [hb]
      split_ifs <;> rfl

-- Concrete reaction class for the C2 counterexample and witness.
def crx2 : RxnClass := ⟨1/2, 1/2, [1/2]⟩

/-- Counterexample to claim C2 as stated: with `min_noreaction_p = 1/2`,
`scaling = 1`, `local_factor = 1/2` and draw `U = 3/10`, the claim's
`p_min = min_noreaction_p · max(1, local_factor) = 1/2` exceeds
`p = U·scaling = 3/10`, so the claim predicts a reaction; the code multiplies
by `local_factor` itself (`p_min = 1/4`), so `p ≥ p_min` and it returns
no-reaction. -/
theorem C2_counterexample :
    (test_bimolecular crx2 ⟨fun _ => 0, 0, fun _ => 3/10, 0⟩ 1 (1/2)).1 =
        none ∧
    crx2.min_noreaction_p * max 1 (1/2 : ℚ) < 1 ∧
    (3/10 : ℚ) * 1 < crx2.min_noreaction_p * max 1 (1/2 : ℚ) := by
  refine ⟨?_, ?_, ?_⟩
  · norm_num [test_bimolecular, crx2, rng_dbl]
  · norm_num [crx2]
  · norm_num [crx2]

/-- Witness for C2 (amended) at a concrete call. -/
theorem C2_witness :
    (test_bimolecular crx2 ⟨fun _ => 0, 0, fun _ => 3/10, 0⟩ 1 (1/2)).2.didx =
        1 ∧
    (test_bimolecular crx2 ⟨fun _ => 0, 0, fun _ => 3/10, 0⟩ 1 (1/2)).1 =
      none := by
  have h := C2_amended_test_bimolecular crx2 ⟨fun _ => 0, 0, fun _ => 3/10, 0⟩
    1 (1/2) (by norm_num) (by simp [crx2])
  refine ⟨h.1, ?_⟩
  rw [h.2]
  norm_num [crx2]

-- ---------------------------------------------------------------------------
-- Unimolecular reactions (reaction_utils.inc, diffuse_react_event.cpp)
-- ---------------------------------------------------------------------------

/-- `time_of_unimol` of `src4/reaction_utils.inc` (lines 956-963): draw one
uniform `p`; when the total rate `k_tot = rx.max_fixed_p` is non-positive or
`p` is not distinguishable from 0, the result is `TIME_FOREVER`, otherwise
`-log(p)/k_tot`. -/
noncomputable def time_of_unimol (rx : RxnClass) (rng : rng_state) :
    ℝ × rng_state :=
  let k_tot := rx.max_fixed_p
  let (p, rng2) := rng_dbl rng
  (if k_tot ≤ 0 ∨ ¬ distinguishable_f p 0 EPS then ((TIME_FOREVER : ℚ) : ℝ)
   else -Real.log ((p : ℚ) : ℝ) / ((k_tot : ℚ) : ℝ), rng2)

/-- `pick_unimol_rx` of `src4/reaction_utils.inc` (lines 940-952): look the
species up in the unimolecular reaction-class map; `nullptr` is `none`. -/
def pick_unimol_rx (unimolecular_reactions_map : List (ℕ × RxnClass))
    (species_id : ℕ) : Option RxnClass :=
  List.lookup species_id unimolecular_reactions_map

/-- `compute_unimol_lifetime` of `src4/reaction_utils.inc` (lines 967-986):
a wrapper around `time_of_unimol` (the debug dump is elided). -/
noncomputable def compute_unimol_lifetime (rx : RxnClass) (rng : rng_state) :
    ℝ × rng_state :=
  time_of_unimol rx rng

/-- `create_unimol_rx_action` of `src4/diffuse_react_event.cpp` (lines
823-856), reduced to its scheduling decision: when the species has no
unimolecular reaction class the function returns without scheduling anything
(`none`); otherwise the scheduled absolute time is `curr_time` plus the
sampled lifetime. -/
noncomputable def create_unimol_rx_action
    (unimol_map : List (ℕ × RxnClass)) (species_id : ℕ)
    (event_time diffusion_time_step remaining_time_step : ℚ)
    (rng : rng_state) : Option ℝ × rng_state :=
  let curr_time := event_time + diffusion_time_step - remaining_time_step
  match pick_unimol_rx unimol_map species_id with
  | none => (none, rng)
  | some rx =>
    let (t, rng2) := compute_unimol_lifetime rx rng
    (some (((curr_time : ℚ) : ℝ) + t), rng2)

-- Evaluation helper: for 0 < p ≤ 1 the distinguishable-from-zero test
-- reduces to EPS < p.
theorem distinguishable_f_pos_small (p : ℚ) (h0 : 0 < p) (h1 : p ≤ 1) :
    distinguishable_f p 0 EPS = decide (EPS < p) := by
  unfold distinguishable_f
  rw [sub_zero, abs_zero, abs_of_pos h0, max_eq_left (le_of_lt h0),
    max_eq_left h1, mul_one]

-- Concrete unimolecular reaction class with total rate 1.
def crx4 : RxnClass := ⟨1, 1, [1]⟩

/-- Counterexample to claim C4 as stated: for the draw `U = 10^-13` (closer to
0 than `EPS`) the code returns `TIME_FOREVER`, not `-ln(U)/k_tot`. -/
theorem C4_counterexample :
    (time_of_unimol crx4 ⟨fun _ => 0, 0, fun _ => 1/10^13, 0⟩).1 =
      ((TIME_FOREVER : ℚ) : ℝ) ∧
    ((TIME_FOREVER : ℚ) : ℝ) ≠
      -Real.log (((1/10^13 : ℚ) : ℝ)) / ((crx4.max_fixed_p : ℚ) : ℝ) := by
  constructor
  · have hd : distinguishable_f (((10:ℚ)^13)⁻¹) 0 EPS = false := by
      rw [distinguishable_f_pos_small _ (by norm_num) (by norm_num)]
      rw [decide_eq_false_iff_not, not_lt]
      norm_num [EPS]
    unfold time_of_unimol
    simp only [rng_dbl]
    rw [if_pos (Or.inr (by simp [hd]))]
  · have hm : ((crx4.max_fixed_p : ℚ) : ℝ) = 1 := by norm_num [crx4]
    have hc : ((1/10^13 : ℚ) : ℝ) = ((10:ℝ)^13)⁻¹ := by
      push_cast
      norm_num
    rw [hc, hm, div_one, Real.log_inv, neg_neg]
    have h2 : Real.log ((10:ℝ)^13) ≤ (10:ℝ)^13 - 1 :=
      Real.log_le_sub_one_of_pos (by positivity)
    have h3 : ((TIME_FOREVER : ℚ) : ℝ) = 10^20 := by norm_num [TIME_FOREVER]
    rw [h3]
    exact ne_of_gt (lt_of_le_of_lt h2 (by norm_num))

/-- Claim C4 (amended): when the species' unimolecular class has total rate
`k_tot = max_fixed_p > 0` and the single uniform draw `U` consumed by the call
is distinguishable from 0, the sampled lifetime equals `-ln(U)/k_tot`;
otherwise (in particular when `U ≤ EPS`) it is `TIME_FOREVER`; and for a
species with no unimolecular reaction class, `pick_unimol_rx` yields none and
`create_unimol_rx_action` schedules no unimolecular event. -/
theorem C4_amended_unimol_lifetime :
    (∀ (rx : RxnClass) (rng : rng_state),
      0 < rx.max_fixed_p →
      distinguishable_f (rng.dbls rng.didx) 0 EPS = true →
      (time_of_unimol rx rng).1 =
          -Real.log ((rng.dbls rng.didx : ℚ) : ℝ) /
            ((rx.max_fixed_p : ℚ) : ℝ) ∧
        (time_of_unimol rx rng).2.didx = rng.didx + 1) ∧
    (∀ (rx : RxnClass) (rng : rng_state),
      distinguishable_f (rng.dbls rng.didx) 0 EPS = false →
      (time_of_unimol rx rng).1 = ((TIME_FOREVER : ℚ) : ℝ)) ∧
    (∀ (unimol_map : List (ℕ × RxnClass)) (species_id : ℕ)
        (et dts rts : ℚ) (rng : rng_state),
      List.lookup species_id unimol_map = none →
      pick_unimol_rx unimol_map species_id = none ∧
      (create_unimol_rx_action unimol_map species_id et dts rts rng).1 =
        none) := by
  refine ⟨?_, ?_, ?_⟩
  · intro rx rng hk hd
    have hcond : ¬ (rx.max_fixed_p ≤ 0 ∨
        ¬ distinguishable_f (rng.dbls rng.didx) 0 EPS = true) := by
      push_neg
      exact ⟨hk, hd⟩
    constructor
    · unfold time_of_unimol
      simp only [rng_dbl]
      rw [if_neg hcond]
    · unfold time_of_unimol
      simp only [rng_dbl]
  · intro rx rng hd
    unfold time_of_unimol
    simp only [rng_dbl]
    rw [if_pos (Or.inr (by simp [hd]))]
  · intro unimol_map species_id et dts rts rng hl
    have hp : pick_unimol_rx unimol_map species_id = none := hl
    refine ⟨hp, ?_⟩
    unfold create_unimol_rx_action
    rw [hp]

/-- Witness for C4 (amended) at concrete inputs. -/
theorem C4_witness :
    (time_of_unimol crx4 ⟨fun _ => 0, 0, fun _ => 1/2, 0⟩).1 =
        -Real.log (((1/2 : ℚ) : ℝ)) / ((crx4.max_fixed_p : ℚ) : ℝ) ∧
    (create_unimol_rx_action [] 5 0 0 0 ⟨fun _ => 0, 0, fun _ => 1/2, 0⟩).1 =
      none := by
  constructor
  · exact (C4_amended_unimol_lifetime.1 crx4 ⟨fun _ => 0, 0, fun _ => 1/2, 0⟩
      (by norm_num [crx4]) (by
        rw [distinguishable_f_pos_small _ (by norm_num) (by norm_num)]
        rw [decide_eq_true_eq]
        norm_num [EPS])).1
  · exact (C4_amended_unimol_lifetime.2.2 [] 5 0 0 0
      ⟨fun _ => 0, 0, fun _ => 1/2, 0⟩ rfl).2

-- ---------------------------------------------------------------------------
-- Surface-frame traversal across a shared edge (geometry_utils.inc)
-- ---------------------------------------------------------------------------

instance : Inhabited vec2_t := ⟨⟨0, 0⟩⟩

-- Shared-edge data (`edge_t`): adjacent wall indices and the rigid transform
-- that flattens the neighbor's uv frame (rotation stored as cos/sin).
structure Edge where
  forward_index : ℕ
  backward_index : ℕ
  cos_theta : ℚ
  sin_theta : ℚ
  translate : vec2_t
deriving DecidableEq, Repr, Inhabited

-- Wall data used by `traverse_surface` (`wall_t`): its own index and its
-- edges.
structure wall_t where
  index : ℕ
  edges : List Edge
deriving DecidableEq, Repr

/-- `traverse_surface` of `src4/geometry_utils.inc` (lines 186-223): cross the
given edge; forward crossings apply rotation then translation, backward
crossings invert (inverse translation then inverse rotation).  Returns the
neighbor wall index and the re-expressed point. -/
def traverse_surface (here : wall_t) (loc : vec2_t) (which_edge : ℕ) :
    ℕ × vec2_t :=
  let e := here.edges.getD which_edge default
  if e.forward_index = here.index then
    let tmp : vec2_t :=
      ⟨e.cos_theta * loc.u + e.sin_theta * loc.v,
       -e.sin_theta * loc.u + e.cos_theta * loc.v⟩
    (e.backward_index, v2add tmp e.translate)
  else
    let tmp := v2sub loc e.translate
    (e.forward_index,
     ⟨e.cos_theta * tmp.u - e.sin_theta * tmp.v,
      e.sin_theta * tmp.u + e.cos_theta * tmp.v⟩)

/-- Claim C8: for an edge shared by walls (w_f, w_b) whose stored rotation
satisfies cos²θ + sin²θ = 1, traversing forward (rotation then translation)
and then back across the same edge (inverse translation then inverse rotation)
returns every uv point to its original value exactly — hence in particular to
within 1e-12 relative error per component. -/
theorem C8_traverse_surface_roundtrip
    (wf wb : wall_t) (i j : ℕ) (e : Edge) (loc : vec2_t)
    (hef : wf.edges.getD i default = e) (heb : wb.edges.getD j default = e)
    (hfwd : e.forward_index = wf.index) (hne : wb.index ≠ wf.index)
    (hrot : e.cos_theta * e.cos_theta + e.sin_theta * e.sin_theta = 1) :
    (traverse_surface wf loc i).1 = e.backward_index ∧
    traverse_surface wb (traverse_surface wf loc i).2 j = (wf.index, loc) ∧
    |(traverse_surface wb (traverse_surface wf loc i).2 j).2.u - loc.u| ≤
      1/10^12 * |loc.u| ∧
    |(traverse_surface wb (traverse_surface wf loc i).2 j).2.v - loc.v| ≤
      1/10^12 * |loc.v| := by
  have h1 : (traverse_surface wf loc i).1 = e.backward_index := by
    unfold traverse_surface
    rw [hef, if_pos hfwd]
  have h2 : traverse_surface wb (traverse_surface wf loc i).2 j =
      (wf.index, loc) := by
    obtain ⟨lu, lv⟩ := loc
    unfold traverse_surface
    rw [hef, heb, if_pos hfwd, if_neg (fun hh => hne ((hfwd.symm.trans hh).symm))]
    simp only [v2add, v2sub, Prod.mk.injEq, vec2_t.mk.injEq]
    refine ⟨hfwd, ?_, ?_⟩
    · linear_combination lu * hrot
    · linear_combination lv * hrot
  refine ⟨h1, h2, ?_, ?_⟩ <;> rw [h2] <;> simp

/-- Witness for C8 at a concrete edge (cos θ = 3/5, sin θ = 4/5). -/
theorem C8_witness :
    traverse_surface ⟨1, [⟨0, 1, 3/5, 4/5, ⟨1, 2⟩⟩]⟩
      (traverse_surface ⟨0, [⟨0, 1, 3/5, 4/5, ⟨1, 2⟩⟩]⟩ ⟨7, 11⟩ 0).2 0 =
      (0, ⟨7, 11⟩) :=
  (C8_traverse_surface_roundtrip ⟨0, [⟨0, 1, 3/5, 4/5, ⟨1, 2⟩⟩]⟩
    ⟨1, [⟨0, 1, 3/5, 4/5, ⟨1, 2⟩⟩]⟩ 0 0 ⟨0, 1, 3/5, 4/5, ⟨1, 2⟩⟩ ⟨7, 11⟩
    rfl rfl rfl (by norm_num) (by norm_num)).2.1

-- ---------------------------------------------------------------------------
-- Displacement sampling (diffusion_utils.inc)
-- ---------------------------------------------------------------------------

-- Species data used by displacement sampling.
structure Species where
  can_diffuse : Bool
  time_step : ℚ
  space_step : ℚ
deriving DecidableEq, Repr

/-- `pick_vol_displacement` of `src4/diffusion_utils.inc` (lines 54-64): a
non-diffusing species gets the zero displacement without touching the RNG;
otherwise three Gaussian draws are scaled.  `rng_gauss` (the Ziggurat sampler
of rng.c, a transcendental rejection sampler) is passed as an oracle; no claim
depends on its values.  The literal `0.70710678118654752440` of the source is
the exact rational below. -/
def pick_vol_displacement (rng_gauss : rng_state → ℚ × rng_state)
    (sp : Species) (scale : ℚ) (rng : rng_state) : vec3_t × rng_state :=
  if ¬ sp.can_diffuse then (⟨0, 0, 0⟩, rng)
  else
    let (g1, r1) := rng_gauss rng
    let (g2, r2) := rng_gauss r1
    let (g3, r3) := rng_gauss r2
    (⟨scale * g1 * (70710678118654752440/100000000000000000000),
      scale * g2 * (70710678118654752440/100000000000000000000),
      scale * g3 * (70710678118654752440/100000000000000000000)⟩, r3)

-- Result record of `compute_vol_displacement` (its out parameters).
structure vol_displacement_result where
  displacement : vec3_t
  rate_factor : ℚ
  r_rate_factor : ℚ
  steps : ℚ
  t_steps : ℚ
  rng : rng_state

/-- `compute_vol_displacement` of `src4/diffusion_utils.inc` (lines 68-97);
`sqrt_f` is passed as an oracle for the square root (irrational over ℚ); no
claim depends on its values. -/
def compute_vol_displacement (rng_gauss : rng_state → ℚ × rng_state)
    (sqrt_f : ℚ → ℚ) (sp : Species) (max_time : ℚ) (rng : rng_state)
    (steps0 : ℚ) : vol_displacement_result :=
  let t_steps1 := steps0 * sp.time_step
  let st2 :=
    if t_steps1 > max_time then (max_time / sp.time_step, max_time)
    else (steps0, t_steps1)
  let st3 :=
    if st2.1 < EPS_C then (EPS_C, EPS_C * sp.time_step) else st2
  if st3.1 = 1 then
    let (d, rng2) := pick_vol_displacement rng_gauss sp sp.space_step rng
    ⟨d, 1, 1, st3.1, st3.2, rng2⟩
  else
    let rate_factor := sqrt_f st3.1
    let (d, rng2) :=
      pick_vol_displacement rng_gauss sp (rate_factor * sp.space_step) rng
    ⟨d, rate_factor, 1 / rate_factor, st3.1, st3.2, rng2⟩

/-- `compute_surf_displacement` of `src4/diffusion_utils.inc` (lines 146-158):
a non-diffusing species gets the zero 2D vector without touching the RNG;
`pick_surf_displacement` (Marsaglia polar sampling, lines 111-143, using
sqrt/log) is passed as an oracle; no claim depends on its values. -/
def compute_surf_displacement (pick_surf : ℚ → rng_state → vec2_t × rng_state)
    (sp : Species) (scale : ℚ) (rng : rng_state) : vec2_t × rng_state :=
  if sp.can_diffuse then pick_surf scale rng
  else (⟨0, 0⟩, rng)

/-- Claim C10: for a species whose `can_diffuse()` is false,
`pick_vol_displacement` (also via `compute_vol_displacement`) and
`compute_surf_displacement` produce the zero displacement and leave the RNG
state unchanged — regardless of the Gaussian/surface samplers, which are
therefore never consulted. -/
theorem C10_no_diffusion_zero_displacement_no_draws
    (rng_gauss : rng_state → ℚ × rng_state) (sqrt_f : ℚ → ℚ)
    (pick_surf : ℚ → rng_state → vec2_t × rng_state)
    (sp : Species) (scale max_time steps0 : ℚ) (rng : rng_state)
    (h : sp.can_diffuse = false) :
    pick_vol_displacement rng_gauss sp scale rng = (⟨0, 0, 0⟩, rng) ∧
    (compute_vol_displacement rng_gauss sqrt_f sp max_time rng
        steps0).displacement = ⟨0, 0, 0⟩ ∧
    (compute_vol_displacement rng_gauss sqrt_f sp max_time rng steps0).rng =
      rng ∧
    compute_surf_displacement pick_surf sp scale rng = (⟨0, 0⟩, rng) := by
  have hp : ∀ s, pick_vol_displacement rng_gauss sp s rng = (⟨0, 0, 0⟩, rng) :=
    fun s => by simp [pick_vol_displacement, h]
  refine ⟨hp scale, ?_, ?_, ?_⟩
  · simp only [compute_vol_displacement, hp]
    split_ifs <;> rfl
  · simp only [compute_vol_displacement, hp]
    split_ifs <;> rfl
  · simp [compute_surf_displacement, h]

/-- Witness for C10 at a concrete non-diffusing species. -/
theorem C10_witness :
    pick_vol_displacement (fun r => (1, r)) ⟨false, 1, 1⟩ 1 rng_zero =
        (⟨0, 0, 0⟩, rng_zero) ∧
    compute_surf_displacement (fun _ r => (⟨1, 1⟩, r)) ⟨false, 1, 1⟩ 1
        rng_zero = (⟨0, 0⟩, rng_zero) := by
  have h := C10_no_diffusion_zero_displacement_no_draws (fun r => (1, r))
    (fun q => q) (fun _ r => (⟨1, 1⟩, r)) ⟨false, 1, 1⟩ 1 1 1 rng_zero rfl
  exact ⟨h.1, h.2.2.2⟩

-- ---------------------------------------------------------------------------
-- Tile-grid lookup uv -> tile index (geometry_utils.inc)
-- ---------------------------------------------------------------------------

/-- Modelled from the spec: `distinguishable_vec2` of `defines.h` is not among
the sources; two 2D points are distinguishable when their largest coordinate
difference exceeds `eps` times the largest coordinate magnitude (clamped below
by `eps`). -/
def distinguishable_vec2 (a b : vec2_t) (eps : ℚ) : Bool :=
  let c := max (max |a.u| |a.v|) (max |b.u| |b.v|)
  let cc := max |a.u - b.u| |a.v - b.v|
  (if c < eps then eps else c) * eps < cc

/-- `cross2D` of `src4/geometry_utils.inc` (lines 236-238). -/
def cross2D (a b : vec2_t) : ℚ := a.v * b.u - a.u * b.v

/-- `point_in_triangle_2D` of `src4/geometry_utils.inc` (lines 259-289):
sign-agreement test; boundary points count as inside. -/
def point_in_triangle_2D (p a b c : vec2_t) : Bool :=
  let pab := cross2D (v2sub p a) (v2sub b a)
  let pbc := cross2D (v2sub p b) (v2sub c b)
  if (pab > 0 ∧ pbc < 0) ∨ (pab < 0 ∧ pbc > 0) then false
  else
    let pca := cross2D (v2sub p c) (v2sub a c)
    if (pab > 0 ∧ pca < 0) ∨ (pab < 0 ∧ pca > 0) then false
    else true

-- C truncation toward zero, as performed by the `(int)` casts of `uv2grid`.
def qtrunc (x : ℚ) : ℤ := if 0 ≤ x then ⌊x⌋ else -⌊-x⌋

-- Grid data used by `uv2grid` (`Grid` fields; the initialization itself is in
-- geometry.cpp, not among the sources).
structure grid_t where
  num_tiles : ℕ
  num_tiles_along_axis : ℕ
  inv_strip_wid : ℚ
  vert2_slope : ℚ
  fullslope : ℚ
deriving DecidableEq, Repr

/-- Modelled from the spec: the grid initialization (geometry.cpp, absent from
src/) fills `grid_t` for an N×N grid of N² equal-area strips on the wall's uv
triangle (0,0), (uv_vert1_u,0), uv_vert2: strip width is `uv_vert2.v / N`, the
left edge has slope `uv_vert2.u / uv_vert2.v` and the strip width at height v
shrinks with slope `uv_vert1_u / uv_vert2.v`. -/
def grid_initialized_for (g : grid_t) (w : Wall) (n : ℕ) : Prop :=
  g.num_tiles_along_axis = n ∧
  g.num_tiles = n * n ∧
  g.inv_strip_wid = (n : ℚ) / w.uv_vert2.v ∧
  g.vert2_slope = w.uv_vert2.u / w.uv_vert2.v ∧
  g.fullslope = w.uv_vert1_u / w.uv_vert2.v

/-- Index computation of the main branch of `uv2grid` of
`src4/geometry_utils.inc` (lines 334-351). -/
def uv2grid_idx (v : vec2_t) (w : Wall) (g : grid_t) : ℤ :=
  let i := v.u
  let j := v.v
  let striploc := j * g.inv_strip_wid
  let strip0 := qtrunc striploc
  let striprem := striploc - (strip0 : ℚ)
  let strip : ℤ := (g.num_tiles_along_axis : ℤ) - strip0 - 1
  let u0 := j * g.vert2_slope
  let u1_u0 := w.uv_vert1_u - j * g.fullslope
  let stripeloc := ((i - u0) / u1_u0) * ((strip : ℚ) + (1 - striprem))
  let stripe := qtrunc stripeloc
  let striperem := stripeloc - (stripe : ℚ)
  let flip : ℤ := if striperem < 1 - striprem then 0 else 1
  strip * strip + 2 * stripe + flip

/-- `uv2grid` of `src4/geometry_utils.inc` (lines 293-362): the two
`mcell_internal_error` aborts (point outside the wall; tile index out of
range, which the C++ code detects via the unsigned comparison
`(u_int)idx >= g.num_tiles`, also triggered by negative `idx`) are modelled as
`none`. -/
def uv2grid (v : vec2_t) (w : Wall) (g : grid_t) : Option ℕ :=
  if g.num_tiles = 1 then some 0
  else
    let tile_idx_mid : ℤ :=
      (g.num_tiles : ℤ) - 2 * (g.num_tiles_along_axis : ℤ) + 1
    let tile_idx_last : ℤ := (g.num_tiles : ℤ) - 1
    let vert_0 : vec2_t := ⟨0, 0⟩
    let vert_1 : vec2_t := ⟨w.uv_vert1_u, 0⟩
    if ¬ distinguishable_vec2 v vert_0 EPS then some tile_idx_mid.toNat
    else if ¬ distinguishable_vec2 v vert_1 EPS then some 0
    else if ¬ distinguishable_vec2 v w.uv_vert2 EPS then some tile_idx_last.toNat
    else if ¬ point_in_triangle_2D v vert_0 vert_1 w.uv_vert2 then none
    else
      let idx := uv2grid_idx v w g
      if idx < 0 ∨ (g.num_tiles : ℤ) ≤ idx then none
      else some idx.toNat

-- Core bound: inside the triangle (strictly left of the right edge) the index
-- computed by the main branch of `uv2grid` lies in [0, N²).
theorem uv2grid_idx_bound (v : vec2_t) (w : Wall) (g : grid_t) (n : ℕ)
    (hg : grid_initialized_for g w n) (hn : 1 ≤ n) (hv2v : 0 < w.uv_vert2.v)
    (hu1 : 0 < w.uv_vert1_u) (hj0 : 0 ≤ v.v) (hjlt : v.v < w.uv_vert2.v)
    (hleft : v.v * w.uv_vert2.u / w.uv_vert2.v ≤ v.u)
    (hright : v.u < w.uv_vert1_u +
      (w.uv_vert2.u - w.uv_vert1_u) * v.v / w.uv_vert2.v) :
    0 ≤ uv2grid_idx v w g ∧ uv2grid_idx v w g < (g.num_tiles : ℤ) := by
  obtain ⟨hna, hnt, hinv, hv2s, hfs⟩ := hg
  simp only [uv2grid_idx]
  rw [hna, hnt, hinv, hv2s, hfs]
  set J := v.v with hJdef
  set I := v.u with hIdef
  set V := w.uv_vert2.v with hVdef
  set U2 := w.uv_vert2.u with hU2def
  set U1 := w.uv_vert1_u with hU1def
  have hnQ : (0:ℚ) < (n:ℚ) := by exact_mod_cast Nat.lt_of_lt_of_le Nat.zero_lt_one hn
  have hSL0 : 0 ≤ J * ((n:ℚ) / V) :=
    mul_nonneg hj0 (div_nonneg (le_of_lt hnQ) (le_of_lt hv2v))
  have hq1 : qtrunc (J * ((n:ℚ) / V)) = ⌊J * ((n:ℚ) / V)⌋ := by
    unfold qtrunc
    exact if_pos hSL0
  rw [hq1]
  set SL := J * ((n:ℚ) / V) with hSLdef
  set S0 := ⌊SL⌋ with hS0def
  have hS0lb : 0 ≤ S0 := Int.floor_nonneg.mpr hSL0
  have hSLlt : SL < (n:ℚ) := by
    rw [hSLdef]
    calc J * ((n:ℚ) / V) < V * ((n:ℚ) / V) :=
          mul_lt_mul_of_pos_right hjlt (div_pos hnQ hv2v)
    _ = (n:ℚ) := by field_simp
  have hS0ub : S0 < (n:ℤ) := by
    apply Int.floor_lt.mpr
    push_cast
    exact hSLlt
  have hfr0 : 0 ≤ SL - (S0:ℚ) := sub_nonneg.mpr (Int.floor_le SL)
  have hfr1 : SL - (S0:ℚ) < 1 := by
    have h := Int.lt_floor_add_one SL
    push_cast at h
    linarith
  set S : ℤ := (n:ℤ) - S0 - 1 with hSdef
  have hSlb : 0 ≤ S := by omega
  have hden : 0 < U1 - J * (U1 / V) := by
    have h1 : U1 - J * (U1 / V) = U1 * (V - J) / V := by
      field_simp
      ring
    rw [h1]
    exact div_pos (mul_pos hu1 (by linarith)) hv2v
  have hnum0 : 0 ≤ I - J * (U2 / V) := by
    have h1 : J * (U2 / V) = J * U2 / V := by ring
    rw [h1]
    linarith
  have hnumlt : I - J * (U2 / V) < U1 - J * (U1 / V) := by
    have h3 : (U2 - U1) * J / V = J * (U2 / V) - J * (U1 / V) := by ring
    rw [h3] at hright
    linarith
  set F := (I - J * (U2 / V)) / (U1 - J * (U1 / V)) with hFdef
  have hF0 : 0 ≤ F := div_nonneg hnum0 (le_of_lt hden)
  have hF1 : F < 1 := (div_lt_one hden).mpr hnumlt
  set B := ((S:ℚ)) + (1 - (SL - (S0:ℚ))) with hBdef
  have hSQ : (0:ℚ) ≤ (S:ℚ) := by exact_mod_cast hSlb
  have hBpos : 0 < B := by
    rw [hBdef]
    linarith
  set SE := F * B with hSEdef
  have hSE0 : 0 ≤ SE := mul_nonneg hF0 (le_of_lt hBpos)
  have hSElt : SE < B := by
    rw [hSEdef]
    calc F * B < 1 * B := mul_lt_mul_of_pos_right hF1 hBpos
    _ = B := one_mul B
  have hq2 : qtrunc SE = ⌊SE⌋ := by
    unfold qtrunc
    exact if_pos hSE0
  rw [hq2]
  set ST := ⌊SE⌋ with hSTdef
  have hST0 : 0 ≤ ST := Int.floor_nonneg.mpr hSE0
  have hSTub : ST ≤ S := by
    have h1 : (ST:ℚ) ≤ SE := Int.floor_le SE
    have h2 : SE < (S:ℚ) + 1 := by
      have h3 : B ≤ (S:ℚ) + 1 := by
        rw [hBdef]
        linarith
      linarith
    have h4 : (ST:ℚ) < (S:ℚ) + 1 := lt_of_le_of_lt h1 h2
    have h5 : ST < S + 1 := by exact_mod_cast h4
    omega
  have hSn : S + 1 ≤ (n:ℤ) := by omega
  have hsq : (S + 1) * (S + 1) ≤ (n:ℤ) * (n:ℤ) :=
    mul_le_mul hSn hSn (by omega) (by omega)
  have hring : (S + 1) * (S + 1) = S * S + 2 * S + 1 := by ring
  by_cases hflip : SE - (ST:ℚ) < 1 - (SL - (S0:ℚ))
  · rw [if_pos hflip]
    constructor
    · linarith [mul_nonneg hSlb hSlb]
    · push_cast
      linarith
  · rw [if_neg hflip]
    have hSTne : ST ≠ S := by
      intro he
      apply hflip
      rw [he]
      have h6 := hSElt
      rw [hBdef] at h6
      linarith
    have hSTub2 : ST ≤ S - 1 := by omega
    constructor
    · linarith [mul_nonneg hSlb hSlb]
    · push_cast
      linarith

-- Points of the strip domain pass the in-triangle sign test.
theorem point_in_triangle_2D_of_strip_domain (v : vec2_t) (u1 v2u v2v : ℚ)
    (hv2v : 0 < v2v) (hj0 : 0 ≤ v.v) (hu1 : 0 ≤ u1)
    (hleft : v.v * v2u / v2v ≤ v.u)
    (hright : v.u < u1 + (v2u - u1) * v.v / v2v) :
    point_in_triangle_2D v ⟨0, 0⟩ ⟨u1, 0⟩ ⟨v2u, v2v⟩ = true := by
  have hleft2 : v.v * v2u ≤ v.u * v2v := by rwa [div_le_iff₀ hv2v] at hleft
  have hright2 : (v.u - u1) * v2v < (v2u - u1) * v.v := by
    have h1 : v.u - u1 < (v2u - u1) * v.v / v2v := by linarith
    rwa [lt_div_iff₀ hv2v] at h1
  simp only [point_in_triangle_2D, cross2D, v2sub]
  split_ifs with h1 h2
  · exfalso
    rcases h1 with ⟨ha, hb⟩ | ⟨ha, hb⟩
    · nlinarith
    · nlinarith [mul_nonneg hj0 hu1]
  · exfalso
    rcases h2 with ⟨ha, hb⟩ | ⟨ha, hb⟩
    · nlinarith
    · nlinarith [mul_nonneg hj0 hu1]
  · rfl

-- A point is never distinguishable from itself.
theorem distinguishable_vec2_self (a : vec2_t) (eps : ℚ) (heps : 0 < eps) :
    distinguishable_vec2 a a eps = false := by
  unfold distinguishable_vec2
  simp only [sub_self, abs_zero, max_self]
  rw [decide_eq_false_iff_not, not_lt]
  split_ifs with h
  · positivity
  · have hc : eps ≤ max |a.u| |a.v| := not_lt.mp h
    exact mul_nonneg (le_trans (le_of_lt heps) hc) (le_of_lt heps)

/-- Claim C9 (amended): for every wall with an initialized N×N tile grid and
every uv point lying inside or on the wall's triangle but strictly left of the
edge from vertex 1 to vertex 2 (points exactly on that edge can reach the
out-of-range branch, see the counterexample), `uv2grid` returns a tile index
in [0, num_tiles); the three triangle vertices map to the three corner tiles
`num_tiles - 2N + 1`, `0` and `num_tiles - 1` respectively. -/
theorem C9_amended_uv2grid (w : Wall) (g : grid_t) (n : ℕ)
    (hg : grid_initialized_for g w n) (hn : 1 ≤ n)
    (hv2v : 0 < w.uv_vert2.v) (hu1 : 0 < w.uv_vert1_u) :
    (∀ v : vec2_t, 0 ≤ v.v → v.v < w.uv_vert2.v →
      v.v * w.uv_vert2.u / w.uv_vert2.v ≤ v.u →
      v.u < w.uv_vert1_u +
        (w.uv_vert2.u - w.uv_vert1_u) * v.v / w.uv_vert2.v →
      ∃ k, uv2grid v w g = some k ∧ k < g.num_tiles) ∧
    (distinguishable_vec2 ⟨w.uv_vert1_u, 0⟩ ⟨0, 0⟩ EPS = true →
     distinguishable_vec2 w.uv_vert2 ⟨0, 0⟩ EPS = true →
     distinguishable_vec2 w.uv_vert2 ⟨w.uv_vert1_u, 0⟩ EPS = true →
     1 < n →
     uv2grid ⟨0, 0⟩ w g =
        some ((g.num_tiles : ℤ) -
          2 * (g.num_tiles_along_axis : ℤ) + 1).toNat ∧
     uv2grid ⟨w.uv_vert1_u, 0⟩ w g = some 0 ∧
     uv2grid w.uv_vert2 w g = some (g.num_tiles - 1)) := by
  have hepspos : (0:ℚ) < EPS := by norm_num [EPS]
  have hnt1 : 1 ≤ g.num_tiles := by
    rw [hg.2.1]
    calc 1 = 1 * 1 := rfl
    _ ≤ n * n := Nat.mul_le_mul hn hn
  constructor
  · intro v hj0 hjlt hleft hright
    simp only [uv2grid]
    by_cases h1 : g.num_tiles = 1
    · rw [if_pos h1]
      exact ⟨0, rfl, by omega⟩
    · rw [if_neg h1]
      have hmid_lt : ((g.num_tiles : ℤ) -
          2 * (g.num_tiles_along_axis : ℤ) + 1).toNat < g.num_tiles := by
        rw [hg.2.1, hg.1]
        have hn1 : (1:ℤ) ≤ (n:ℤ) := by exact_mod_cast hn
        have hident : ((n * n : ℕ):ℤ) - 2 * (n:ℤ) + 1 =
            ((n:ℤ) - 1) * ((n:ℤ) - 1) := by push_cast; ring
        rw [hident]
        have hlt : ((n:ℤ) - 1) * ((n:ℤ) - 1) < (n:ℤ) * (n:ℤ) := by nlinarith
        have h0 : (0:ℤ) ≤ ((n:ℤ) - 1) * ((n:ℤ) - 1) := mul_self_nonneg _
        have hcast : ((n * n : ℕ) : ℤ) = (n:ℤ) * (n:ℤ) := by push_cast; ring
        omega
      cases hB0 : distinguishable_vec2 v ⟨0, 0⟩ EPS with
      | false =>
        rw [if_pos (by simp [hB0])]
        exact ⟨_, rfl, hmid_lt⟩
      | true =>
        rw [if_neg (by simp [hB0])]
        cases hB1 : distinguishable_vec2 v ⟨w.uv_vert1_u, 0⟩ EPS with
        | false =>
          rw [if_pos (by simp [hB1])]
          exact ⟨0, rfl, by omega⟩
        | true =>
          rw [if_neg (by simp [hB1])]
          cases hB2 : distinguishable_vec2 v w.uv_vert2 EPS with
          | false =>
            rw [if_pos (by simp [hB2])]
            exact ⟨_, rfl, by omega⟩
          | true =>
            rw [if_neg (by simp [hB2])]
            have htri : point_in_triangle_2D v ⟨0, 0⟩ ⟨w.uv_vert1_u, 0⟩
                w.uv_vert2 = true := by
              have h := point_in_triangle_2D_of_strip_domain v w.uv_vert1_u
                w.uv_vert2.u w.uv_vert2.v hv2v hj0 (le_of_lt hu1) hleft hright
              simpa using h
            rw [if_neg (by simp [htri])]
            obtain ⟨hb1, hb2⟩ :=
              uv2grid_idx_bound v w g n hg hn hv2v hu1 hj0 hjlt hleft hright
            rw [if_neg (by push_neg; exact ⟨hb1, hb2⟩)]
            exact ⟨_, rfl, by omega⟩
  · intro hd1 hd2 hd3 hn2
    have hT1 : g.num_tiles ≠ 1 := by
      rw [hg.2.1]
      have h4 : 2 * 2 ≤ n * n := Nat.mul_le_mul hn2 hn2
      omega
    refine ⟨?_, ?_, ?_⟩
    · simp only [uv2grid]
      rw [if_neg hT1,
        if_pos (by simp [distinguishable_vec2_self ⟨0, 0⟩ EPS hepspos])]
    · simp only [uv2grid]
      rw [if_neg hT1, if_neg (by simp [hd1]),
        if_pos (by simp [distinguishable_vec2_self ⟨w.uv_vert1_u, 0⟩ EPS hepspos])]
    · simp only [uv2grid]
      rw [if_neg hT1, if_neg (by simp [hd2]), if_neg (by simp [hd3]),
        if_pos (by simp [distinguishable_vec2_self w.uv_vert2 EPS hepspos])]
      congr 1
      omega

-- Concrete wall and 2×2 grid for the C9 counterexample and witness: uv
-- triangle (0,0), (1,0), (0,1).
def w9 : Wall :=
  { vert0 := ⟨0, 0, 0⟩, vert1 := ⟨1, 0, 0⟩, vert2 := ⟨0, 1, 0⟩,
    normal := ⟨0, 0, 1⟩, distance_to_origin := 0,
    unit_u := ⟨1, 0, 0⟩, unit_v := ⟨0, 1, 0⟩,
    uv_vert1_u := 1, uv_vert2 := ⟨0, 1⟩ }

def g9 : grid_t := ⟨4, 2, 2, 0, 1⟩

/-- Counterexample to claim C9 as stated: on the 2×2 grid of `w9`, the point
(3/4, 1/4) lies on the wall's triangle (on the edge from vertex 1 to vertex
2), yet `uv2grid` computes tile index 4 = num_tiles and takes the internal
out-of-range error branch (`none`) instead of returning an index in
[0, num_tiles). -/
theorem C9_counterexample :
    grid_initialized_for g9 w9 2 ∧
    point_in_triangle_2D ⟨3/4, 1/4⟩ ⟨0, 0⟩ ⟨w9.uv_vert1_u, 0⟩ w9.uv_vert2 =
      true ∧
    uv2grid ⟨3/4, 1/4⟩ w9 g9 = none := by
  have hf1 : ⌊(1/2 : ℚ)⌋ = 0 := by
    rw [Int.floor_eq_iff] <;> norm_num
  have hf2 : ⌊(3/2 : ℚ)⌋ = 1 := by
    rw [Int.floor_eq_iff] <;> norm_num
  have ha1 : |(3/4 : ℚ)| = 3/4 := abs_of_pos (by norm_num)
  have ha2 : |(1/4 : ℚ)| = 1/4 := abs_of_pos (by norm_num)
  refine ⟨?_, ?_, ?_⟩
  · norm_num [grid_initialized_for, g9, w9]
  · norm_num [point_in_triangle_2D, cross2D, v2sub, w9]
  · norm_num [uv2grid, uv2grid_idx, qtrunc, distinguishable_vec2,
      point_in_triangle_2D, cross2D, v2sub, EPS, g9, w9, hf1, hf2, ha1, ha2]

/-- Witness for C9 (amended) at a concrete interior point of `w9`. -/
theorem C9_witness :
    ∃ k, uv2grid ⟨1/2, 1/4⟩ w9 g9 = some k ∧ k < g9.num_tiles :=
  (C9_amended_uv2grid w9 g9 2
    (by norm_num [grid_initialized_for, g9, w9]) (by norm_num)
    (by norm_num [w9]) (by norm_num [w9])).1 ⟨1/2, 1/4⟩
    (by norm_num) (by norm_num [w9]) (by norm_num [w9]) (by norm_num [w9])

/-- Surface molecule state relevant to the 2D move helpers of
`src/src4/diffusion_utils.inc`: molecule id, the index of the wall the
molecule sits on (`sm.s.wall_index`), the grid tile index
(`sm.s.grid_tile_index`) and its uv position (`sm.s.pos`). -/
structure SMol where
  id : ℕ
  wall_index : ℕ
  grid_tile_index : ℕ
  pos : vec2_t

/-- A wall together with its (possibly not yet initialized) molecule grid:
`num_tiles` is the tile count of the wall's grid and `grid`, when present,
is the tile occupancy array (`Grid`), one optional molecule id per tile
(`MOLECULE_ID_INVALID` modelled as `none`). -/
structure WallG where
  num_tiles : ℕ
  grid : Option (List (Option ℕ))

/-- Functional update of the `i`-th element of a list (out-of-range indices
leave the list unchanged). -/
def lupd {α : Type} : List α → ℕ → (α → α) → List α
  | [], _, _ => []
  | a :: t, 0, f => f a :: t
  | a :: t, n + 1, f => a :: lupd t n f

/-- Occupancy of tile `ti` of wall `wi`: `Grid::get_molecule_on_tile`,
yielding `none` (`MOLECULE_ID_INVALID`) for missing walls, uninitialized
grids and out-of-range tiles. -/
def tile_at (walls : List WallG) (wi ti : ℕ) : Option ℕ :=
  match walls[wi]? with
  | none => none
  | some w =>
    match w.grid with
    | none => none
    | some g => g.getD ti none

/-- `Grid::set_molecule_tile` / `Grid::reset_molecule_tile`: write value `v`
into tile `ti` of wall `wi`. -/
def wupd (walls : List WallG) (wi ti : ℕ) (v : Option ℕ) : List WallG :=
  lupd walls wi (fun w => { w with grid := w.grid.map (fun g => lupd g ti (fun _ => v)) })

/-- `Wall::initialize_grid`: create an all-empty occupancy array of
`num_tiles` tiles on wall `wi`. -/
def ginit (walls : List WallG) (wi : ℕ) : List WallG :=
  lupd walls wi (fun w => { w with grid := some (List.replicate w.num_tiles none) })

/-- `move_sm_on_same_triangle` (src/src4/diffusion_utils.inc:175-207) with
the already computed destination tile index passed in for
`GridUtil::uv2grid_tile_index(new_loc, wall)`.  Returns `none` on
`mcell_internal_error` (out-of-range tile) or when the wall/grid the
molecule claims to sit on does not exist; otherwise
`some (walls', sm', code)` where `code = 1` means "pick again, full here"
and `code = 0` means the molecule moved. -/
def move_sm_on_same_triangle (walls : List WallG) (sm : SMol) (new_loc : vec2_t)
    (new_tile_index : ℕ) : Option (List WallG × SMol × ℕ) :=
  match walls[sm.wall_index]? with
  | none => none
  | some wall =>
    match wall.grid with
    | none => none
    | some _ =>
      if wall.num_tiles ≤ new_tile_index then
        none
      else if new_tile_index ≠ sm.grid_tile_index then
        match tile_at walls sm.wall_index new_tile_index with
        | some _ => some (walls, sm, 1)
        | none =>
          some (wupd (wupd walls sm.wall_index sm.grid_tile_index none)
                  sm.wall_index new_tile_index (some sm.id),
                { sm with grid_tile_index := new_tile_index, pos := new_loc }, 0)
      else
        some (walls, { sm with pos := new_loc }, 0)

/-- `move_sm_to_new_triangle` (src/src4/diffusion_utils.inc:224-269), same
conventions as `move_sm_on_same_triangle`; the destination wall's grid is
initialized first if absent, then the destination tile is range-checked and
tested for occupancy. -/
def move_sm_to_new_triangle (walls : List WallG) (sm : SMol) (new_loc : vec2_t)
    (new_wall_index new_tile_index : ℕ) : Option (List WallG × SMol × ℕ) :=
  match walls[sm.wall_index]? with
  | none => none
  | some wall =>
    match wall.grid with
    | none => none
    | some _ =>
      match walls[new_wall_index]? with
      | none => none
      | some new_wall =>
        let walls1 := match new_wall.grid with
          | none => ginit walls new_wall_index
          | some _ => walls
        if new_wall.num_tiles ≤ new_tile_index then
          none
        else
          match tile_at walls1 new_wall_index new_tile_index with
          | some _ => some (walls1, sm, 1)
          | none =>
            some (wupd (wupd walls1 sm.wall_index sm.grid_tile_index none)
                    new_wall_index new_tile_index (some sm.id),
                  { sm with wall_index := new_wall_index,
                            grid_tile_index := new_tile_index, pos := new_loc }, 0)

/-- Every surface molecule's `(wall, tile)` fields point at a tile that
holds exactly its id. -/
def mol_to_tile_ok (walls : List WallG) (ms : List SMol) : Prop :=
  ∀ sm ∈ ms, tile_at walls sm.wall_index sm.grid_tile_index = some sm.id

/-- Every occupied tile maps back to a listed molecule whose `(wall, tile)`
fields are that tile. -/
def tile_to_mol_ok (walls : List WallG) (ms : List SMol) : Prop :=
  ∀ wi ti mid, tile_at walls wi ti = some mid →
    ∃ sm ∈ ms, sm.id = mid ∧ sm.wall_index = wi ∧ sm.grid_tile_index = ti

/-- Molecule ids identify molecules. -/
def ids_injective (ms : List SMol) : Prop :=
  ∀ a ∈ ms, ∀ b ∈ ms, a.id = b.id → a = b

/-- Every initialized grid has exactly `num_tiles` tiles. -/
def grids_sized (walls : List WallG) : Prop :=
  ∀ (wi : ℕ) (w : WallG) (g : List (Option ℕ)),
    walls[wi]? = some w → w.grid = some g → g.length = w.num_tiles

/-- The surface-molecule grid invariant: the molecule→tile and
tile→molecule maps invert each other, ids are injective and grids are
well-sized.  Together these say each tile holds at most one molecule and
`(s.wall, s.tile)` maps back to `s`. -/
def sm_inv (walls : List WallG) (ms : List SMol) : Prop :=
  mol_to_tile_ok walls ms ∧ tile_to_mol_ok walls ms ∧
    ids_injective ms ∧ grids_sized walls

/-- Replace the molecule with `old`'s id by `new` in the molecule list. -/
def replace_mol (ms : List SMol) (old new : SMol) : List SMol :=
  ms.map (fun x => if x.id = old.id then new else x)

theorem lupd_length {α : Type} (l : List α) (i : ℕ) (f : α → α) :
    (lupd l i f).length = l.length := by
  induction l generalizing i with
  | nil => rfl
  | cons a t ih => cases i <;> simp [lupd, ih]

theorem lupd_getElem? {α : Type} (l : List α) (i : ℕ) (f : α → α) (j : ℕ) :
    (lupd l i f)[j]? = if j = i then (l[j]?).map f else l[j]? := by
  induction l generalizing i j with
  | nil => simp [lupd]
  | cons a t ih =>
    cases i with
    | zero => cases j <;> simp [lupd]
    | succ n =>
      cases j with
      | zero => simp [lupd]
      | succ m => simpa [lupd] using ih n m

theorem getD_eq_getElem?_getD {α : Type} (l : List α) (n : ℕ) (d : α) :
    l.getD n d = (l[n]?).getD d := by
  induction l generalizing n with
  | nil => simp [List.getD]
  | cons a t ih => cases n <;> simp [List.getD, ih]

theorem tile_at_some_defined {walls : List WallG} {wi ti mid : ℕ}
    (h : tile_at walls wi ti = some mid) :
    ∃ w g, walls[wi]? = some w ∧ w.grid = some g ∧ ti < g.length := by
  unfold tile_at at h
  rcases hq : walls[wi]? with _ | w
  · simp only [hq] at h
    exact absurd h (by simp)
  · simp only [hq] at h
    rcases hg : w.grid with _ | g
    · simp only [hg] at h
      exact absurd h (by simp)
    · simp only [hg] at h
      refine ⟨w, g, rfl, hg, ?_⟩
      by_contra hlen
      rw [getD_eq_getElem?_getD, List.getElem?_eq_none (Nat.le_of_not_lt hlen)] at h
      exact absurd h (by simp)

theorem tile_at_wupd_other {walls : List WallG} {wi ti wi' ti' : ℕ}
    {v : Option ℕ} (h : wi' ≠ wi ∨ ti' ≠ ti) :
    tile_at (wupd walls wi ti v) wi' ti' = tile_at walls wi' ti' := by
  unfold tile_at wupd
  rw [lupd_getElem?]
  rcases h with h | h
  · rw [if_neg h]
  · by_cases hw : wi' = wi
    · rw [if_pos hw]
      rcases hq : walls[wi']? with _ | w
      · simp
      · rcases hg : w.grid with _ | g <;>
          simp [hg, getD_eq_getElem?_getD, lupd_getElem?, h]
    · rw [if_neg hw]

theorem tile_at_wupd_self {walls : List WallG} {wi ti : ℕ} {v : Option ℕ}
    {w : WallG} {g : List (Option ℕ)}
    (hw : walls[wi]? = some w) (hg : w.grid = some g) (hti : ti < g.length) :
    tile_at (wupd walls wi ti v) wi ti = v := by
  unfold tile_at wupd
  rw [lupd_getElem?, if_pos rfl, hw]
  simp [hg, getD_eq_getElem?_getD, lupd_getElem?, List.getElem?_eq_getElem hti]

theorem tile_defined_wupd {walls : List WallG} {a b wi ti : ℕ} {v : Option ℕ}
    (h : ∃ w g, walls[a]? = some w ∧ w.grid = some g ∧ b < g.length) :
    ∃ w g, (wupd walls wi ti v)[a]? = some w ∧ w.grid = some g ∧ b < g.length := by
  obtain ⟨w, g, hw, hg, hb⟩ := h
  by_cases hwa : a = wi
  · refine ⟨{ w with grid := some (lupd g ti (fun _ => v)) },
      lupd g ti (fun _ => v), ?_, rfl, ?_⟩
    · unfold wupd
      rw [lupd_getElem?, if_pos hwa, hw]
      simp [hg]
    · rw [lupd_length]; exact hb
  · refine ⟨w, g, ?_, hg, hb⟩
    unfold wupd
    rw [lupd_getElem?, if_neg hwa, hw]

theorem grids_sized_wupd {walls : List WallG} {wi ti : ℕ} {v : Option ℕ}
    (h : grids_sized walls) : grids_sized (wupd walls wi ti v) := by
  unfold grids_sized
  intro a w g hw hg
  unfold wupd at hw
  rw [lupd_getElem?] at hw
  by_cases hwa : a = wi
  · rw [if_pos hwa] at hw
    rcases hq : walls[a]? with _ | w0
    · rw [hq] at hw
      exact absurd hw (by simp)
    · rw [hq] at hw
      simp only [Option.map_some', Option.some.injEq] at hw
      subst hw
      rcases hg0 : w0.grid with _ | g0
      · simp only [hg0, Option.map_none'] at hg
        exact absurd hg (by simp)
      · simp only [hg0, Option.map_some', Option.some.injEq] at hg
        subst hg
        show (lupd g0 ti fun _ => v).length = w0.num_tiles
        rw [lupd_length]
        exact h a w0 g0 hq hg0
  · rw [if_neg hwa] at hw
    exact h a w g hw hg

theorem grids_sized_ginit {walls : List WallG} {wi : ℕ}
    (h : grids_sized walls) : grids_sized (ginit walls wi) := by
  unfold grids_sized
  intro a w g hw hg
  unfold ginit at hw
  rw [lupd_getElem?] at hw
  by_cases hwa : a = wi
  · rw [if_pos hwa] at hw
    rcases hq : walls[a]? with _ | w0
    · rw [hq] at hw
      exact absurd hw (by simp)
    · rw [hq] at hw
      simp only [Option.map_some', Option.some.injEq] at hw
      subst hw
      simp only [Option.some.injEq] at hg
      subst hg
      show (List.replicate w0.num_tiles (none : Option ℕ)).length = w0.num_tiles
      simp
  · rw [if_neg hwa] at hw
    exact h a w g hw hg

theorem tile_at_ginit {walls : List WallG} {wi : ℕ} {w : WallG}
    (hw : walls[wi]? = some w) (hnone : w.grid = none) (wi' ti' : ℕ) :
    tile_at (ginit walls wi) wi' ti' = tile_at walls wi' ti' := by
  unfold tile_at ginit
  rw [lupd_getElem?]
  by_cases hwa : wi' = wi
  · subst hwa
    rw [hw]
    simp [hnone, getD_eq_getElem?_getD, List.getElem?_replicate]
    split <;> rfl
  · rw [if_neg hwa]

theorem sm_inv_of_pointwise {walls walls' : List WallG} {ms : List SMol}
    (hpt : ∀ a b, tile_at walls' a b = tile_at walls a b)
    (hsz : grids_sized walls') (hinv : sm_inv walls ms) : sm_inv walls' ms := by
  obtain ⟨hmt, htm, hinj, _⟩ := hinv
  refine ⟨fun sm hsm => ?_, fun a b mid h => ?_, hinj, hsz⟩
  · rw [hpt]; exact hmt sm hsm
  · rw [hpt] at h; exact htm a b mid h

theorem mem_replace_mol_of_mem {ms : List SMol} {old new y : SMol}
    (hy : y ∈ ms) (hne : ¬ y.id = old.id) : y ∈ replace_mol ms old new := by
  unfold replace_mol
  rw [List.mem_map]
  exact ⟨y, hy, by rw [if_neg hne]⟩

theorem new_mem_replace_mol {ms : List SMol} {old new : SMol}
    (hold : old ∈ ms) : new ∈ replace_mol ms old new := by
  unfold replace_mol
  rw [List.mem_map]
  exact ⟨old, hold, by rw [if_pos rfl]⟩

theorem ids_injective_replace {ms : List SMol} {sm sm' : SMol}
    (hinj : ids_injective ms) (hid : sm'.id = sm.id) :
    ids_injective (replace_mol ms sm sm') := by
  unfold ids_injective
  intro a ha b hb hab
  rw [replace_mol, List.mem_map] at ha hb
  obtain ⟨ya, hya, hxa⟩ := ha
  obtain ⟨yb, hyb, hxb⟩ := hb
  by_cases h1 : ya.id = sm.id
  · by_cases h2 : yb.id = sm.id
    · rw [if_pos h1] at hxa
      rw [if_pos h2] at hxb
      rw [← hxa, ← hxb]
    · rw [if_pos h1] at hxa
      rw [if_neg h2] at hxb
      exact absurd (by rw [hxb, ← hab, ← hxa, hid] : yb.id = sm.id) h2
  · by_cases h2 : yb.id = sm.id
    · rw [if_neg h1] at hxa
      rw [if_pos h2] at hxb
      exact absurd (by rw [hxa, hab, ← hxb, hid] : ya.id = sm.id) h1
    · rw [if_neg h1] at hxa
      rw [if_neg h2] at hxb
      rw [← hxa, ← hxb]
      exact hinj ya hya yb hyb (by rw [hxa, hxb]; exact hab)

theorem sm_inv_replace_same_tile {walls : List WallG} {ms : List SMol}
    {sm sm' : SMol} (hinv : sm_inv walls ms) (hmem : sm ∈ ms)
    (hid : sm'.id = sm.id) (hw : sm'.wall_index = sm.wall_index)
    (ht : sm'.grid_tile_index = sm.grid_tile_index) :
    sm_inv walls (replace_mol ms sm sm') := by
  obtain ⟨hmt, htm, hinj, hsz⟩ := hinv
  refine ⟨?_, ?_, ?_, hsz⟩
  · intro x hx
    rw [replace_mol, List.mem_map] at hx
    obtain ⟨y, hy, hxy⟩ := hx
    by_cases hyid : y.id = sm.id
    · rw [if_pos hyid] at hxy
      subst hxy
      rw [hid, hw, ht]
      exact hmt sm hmem
    · rw [if_neg hyid] at hxy
      subst hxy
      exact hmt y hy
  · intro a b mid h
    obtain ⟨y, hy, hyid, hyw, hyt⟩ := htm a b mid h
    by_cases hys : y.id = sm.id
    · have : y = sm := hinj y hy sm hmem hys
      subst this
      exact ⟨sm', new_mem_replace_mol hmem,
        by rw [hid, ← hys, hyid], by rw [hw, hyw], by rw [ht, hyt]⟩
    · exact ⟨y, mem_replace_mol_of_mem hy hys, hyid, hyw, hyt⟩
  · exact ids_injective_replace hinj hid

theorem sm_inv_move {walls walls_b : List WallG} {ms : List SMol}
    {sm sm' : SMol} {nwi nti : ℕ}
    (hb : ∀ a b, tile_at walls_b a b = tile_at walls a b)
    (hszb : grids_sized walls_b)
    (hinv : sm_inv walls ms) (hmem : sm ∈ ms)
    (hid : sm'.id = sm.id)
    (hw' : sm'.wall_index = nwi) (ht' : sm'.grid_tile_index = nti)
    (hne : ¬ (sm.wall_index = nwi ∧ sm.grid_tile_index = nti))
    (hdest : tile_at walls nwi nti = none)
    (hdef : ∃ w g, walls_b[nwi]? = some w ∧ w.grid = some g ∧ nti < g.length) :
    sm_inv (wupd (wupd walls_b sm.wall_index sm.grid_tile_index none)
        nwi nti (some sm.id)) (replace_mol ms sm sm') := by
  obtain ⟨hmt, htm, hinj, _⟩ := hinv
  have hold : tile_at walls_b sm.wall_index sm.grid_tile_index = some sm.id := by
    rw [hb]
    exact hmt sm hmem
  have holddef := tile_at_some_defined hold
  have hocc : ∀ a b, tile_at (wupd (wupd walls_b sm.wall_index sm.grid_tile_index none)
      nwi nti (some sm.id)) a b =
      if a = nwi ∧ b = nti then some sm.id
      else if a = sm.wall_index ∧ b = sm.grid_tile_index then none
      else tile_at walls a b := by
    intro a b
    by_cases h1 : a = nwi ∧ b = nti
    · obtain ⟨ha, hb2⟩ := h1
      subst ha
      subst hb2
      rw [if_pos ⟨rfl, rfl⟩]
      obtain ⟨w2, g2, hw2, hg2, hlt2⟩ := tile_defined_wupd hdef
      exact tile_at_wupd_self hw2 hg2 hlt2
    · rw [if_neg h1, tile_at_wupd_other (not_and_or.mp h1)]
      by_cases h2 : a = sm.wall_index ∧ b = sm.grid_tile_index
      · obtain ⟨ha, hb2⟩ := h2
        subst ha
        subst hb2
        rw [if_pos ⟨rfl, rfl⟩]
        obtain ⟨w1, g1, hw1, hg1, hlt1⟩ := holddef
        exact tile_at_wupd_self hw1 hg1 hlt1
      · rw [if_neg h2, tile_at_wupd_other (not_and_or.mp h2), hb]
  refine ⟨?_, ?_, ids_injective_replace hinj hid,
    grids_sized_wupd (grids_sized_wupd hszb)⟩
  · intro x hx
    rw [replace_mol, List.mem_map] at hx
    obtain ⟨y, hy, hxy⟩ := hx
    by_cases hyid : y.id = sm.id
    · rw [if_pos hyid] at hxy
      subst hxy
      rw [hocc, hw', ht', if_pos ⟨rfl, rfl⟩, hid]
    · rw [if_neg hyid] at hxy
      subst hxy
      rw [hocc]
      have hy1 : ¬ (y.wall_index = nwi ∧ y.grid_tile_index = nti) := by
        rintro ⟨ha, hb2⟩
        have hcon := hmt y hy
        rw [ha, hb2, hdest] at hcon
        exact absurd hcon (by simp)
      have hy2 : ¬ (y.wall_index = sm.wall_index ∧ y.grid_tile_index = sm.grid_tile_index) := by
        rintro ⟨ha, hb2⟩
        have hc1 := hmt y hy
        have hc2 := hmt sm hmem
        rw [ha, hb2] at hc1
        exact hyid (Option.some.inj (hc1.symm.trans hc2))
      rw [if_neg hy1, if_neg hy2]
      exact hmt y hy
  · intro a b mid h
    rw [hocc] at h
    by_cases h1 : a = nwi ∧ b = nti
    · rw [if_pos h1] at h
      refine ⟨sm', new_mem_replace_mol hmem, ?_, ?_, ?_⟩
      · rw [hid]
        exact Option.some.inj h
      · rw [hw']
        exact h1.1.symm
      · rw [ht']
        exact h1.2.symm
    · rw [if_neg h1] at h
      by_cases h2 : a = sm.wall_index ∧ b = sm.grid_tile_index
      · rw [if_pos h2] at h
        exact absurd h (by simp)
      · rw [if_neg h2] at h
        obtain ⟨y, hy, hyid, hyw, hyt⟩ := htm a b mid h
        have hyne : ¬ y.id = sm.id := by
          intro hcon
          have hys : y = sm := hinj y hy sm hmem hcon
          apply h2
          constructor
          · rw [← hyw, hys]
          · rw [← hyt, hys]
        exact ⟨y, mem_replace_mol_of_mem hy hyne, hyid, hyw, hyt⟩

/-- **C6**: Every surface-molecule move preserves the grid invariant: each
tile holds at most one molecule and the tile map inverts the molecule's
`(wall, tile)` fields.  For `move_sm_on_same_triangle` and (for a genuinely
different destination wall) `move_sm_to_new_triangle`: if the destination
tile is occupied by another molecule the move is rejected (`code 1`) and the
molecule's wall index, tile index and uv position are all unchanged (for the
cross-wall move the tile occupancy is also unchanged, the destination wall's
grid at most being freshly initialized); otherwise (`code 0`) the old tile
is cleared and the new tile is set to the moving molecule in the same
operation, and the invariant `sm_inv` holds again for the updated molecule
list. -/
theorem C6_move_sm_grid_invariant
    (walls : List WallG) (ms : List SMol) (sm : SMol) (new_loc : vec2_t)
    (nti nwi : ℕ) (hmem : sm ∈ ms) (hinv : sm_inv walls ms) :
    (∀ walls2 sm2, move_sm_on_same_triangle walls sm new_loc nti = some (walls2, sm2, 1) →
        walls2 = walls ∧ sm2 = sm ∧
        ∃ mid, tile_at walls sm.wall_index nti = some mid ∧ mid ≠ sm.id) ∧
    (∀ walls2 sm2, move_sm_on_same_triangle walls sm new_loc nti = some (walls2, sm2, 0) →
        sm2.id = sm.id ∧ sm2.wall_index = sm.wall_index ∧ sm2.grid_tile_index = nti ∧
        sm2.pos = new_loc ∧
        tile_at walls2 sm2.wall_index sm2.grid_tile_index = some sm2.id ∧
        (nti ≠ sm.grid_tile_index → tile_at walls2 sm.wall_index sm.grid_tile_index = none) ∧
        sm_inv walls2 (replace_mol ms sm sm2)) ∧
    (sm.wall_index ≠ nwi →
      (∀ walls2 sm2, move_sm_to_new_triangle walls sm new_loc nwi nti = some (walls2, sm2, 1) →
          sm2 = sm ∧ (∀ a b, tile_at walls2 a b = tile_at walls a b) ∧
          sm_inv walls2 ms ∧
          ∃ mid, tile_at walls nwi nti = some mid ∧ mid ≠ sm.id) ∧
      (∀ walls2 sm2, move_sm_to_new_triangle walls sm new_loc nwi nti = some (walls2, sm2, 0) →
          sm2.id = sm.id ∧ sm2.wall_index = nwi ∧ sm2.grid_tile_index = nti ∧
          sm2.pos = new_loc ∧
          tile_at walls2 nwi nti = some sm.id ∧
          tile_at walls2 sm.wall_index sm.grid_tile_index = none ∧
          sm_inv walls2 (replace_mol ms sm sm2))) := by
  have hmt := hinv.1
  have htm := hinv.2.1
  have hinj := hinv.2.2.1
  have hsz := hinv.2.2.2
  have holdtile := hmt sm hmem
  obtain ⟨w0, g0, hw0, hg0, hlt0⟩ := tile_at_some_defined holdtile
  refine ⟨?_, ?_, ?_⟩
  · intro walls2 sm2 heq
    unfold move_sm_on_same_triangle at heq
    simp only [hw0, hg0] at heq
    by_cases h1 : w0.num_tiles ≤ nti
    · rw [if_pos h1] at heq
      exact absurd heq (by simp)
    · rw [if_neg h1] at heq
      by_cases h2 : nti = sm.grid_tile_index
      · rw [if_neg (not_ne_iff.mpr h2)] at heq
        exact absurd heq (by simp)
      · rw [if_pos h2] at heq
        rcases htile : tile_at walls sm.wall_index nti with _ | mid
        · simp only [htile] at heq
          exact absurd heq (by simp)
        · simp only [htile, Option.some.injEq, Prod.mk.injEq] at heq
          obtain ⟨hA, hB, -⟩ := heq
          refine ⟨hA.symm, hB.symm, mid, rfl, ?_⟩
          intro hcon
          obtain ⟨y, hy, hyid, hyw, hyt⟩ := htm _ _ _ htile
          have hys : y = sm := hinj y hy sm hmem (by rw [hyid, hcon])
          rw [hys] at hyt
          exact h2 hyt.symm
  · intro walls2 sm2 heq
    unfold move_sm_on_same_triangle at heq
    simp only [hw0, hg0] at heq
    by_cases h1 : w0.num_tiles ≤ nti
    · rw [if_pos h1] at heq
      exact absurd heq (by simp)
    · rw [if_neg h1] at heq
      by_cases h2 : nti = sm.grid_tile_index
      · rw [if_neg (not_ne_iff.mpr h2)] at heq
        simp only [Option.some.injEq, Prod.mk.injEq] at heq
        obtain ⟨hA, hB, -⟩ := heq
        subst hA
        subst hB
        exact ⟨rfl, rfl, h2.symm, rfl, holdtile,
          fun hx => absurd h2 hx,
          sm_inv_replace_same_tile hinv hmem rfl rfl rfl⟩
      · rw [if_pos h2] at heq
        rcases htile : tile_at walls sm.wall_index nti with _ | mid
        · simp only [htile, Option.some.injEq, Prod.mk.injEq] at heq
          obtain ⟨hA, hB, -⟩ := heq
          subst hA
          subst hB
          have hnti : nti < g0.length := by
            rw [hsz sm.wall_index w0 g0 hw0 hg0]
            exact Nat.lt_of_not_le h1
          refine ⟨rfl, rfl, rfl, rfl, ?_, ?_, ?_⟩
          · obtain ⟨w2, g2, hw2, hg2, hlt2⟩ :=
              tile_defined_wupd (⟨w0, g0, hw0, hg0, hnti⟩ :
                ∃ w g, walls[sm.wall_index]? = some w ∧ w.grid = some g ∧ nti < g.length)
            exact tile_at_wupd_self hw2 hg2 hlt2
          · intro hx
            rw [tile_at_wupd_other (Or.inr (Ne.symm h2))]
            exact tile_at_wupd_self hw0 hg0 hlt0
          · exact sm_inv_move (fun a b => rfl) hsz hinv hmem rfl rfl rfl
              (fun hc => h2 hc.2.symm) htile ⟨w0, g0, hw0, hg0, hnti⟩
        · simp only [htile] at heq
          exact absurd heq (by simp)
  · intro hnw
    constructor
    · intro walls2 sm2 heq
      unfold move_sm_to_new_triangle at heq
      simp only [hw0, hg0] at heq
      rcases hnwq : walls[nwi]? with _ | nw
      · simp only [hnwq] at heq
        exact absurd heq (by simp)
      · simp only [hnwq] at heq
        rcases hnwg : nw.grid with _ | gn
        · simp only [hnwg] at heq
          have hbpt := tile_at_ginit hnwq hnwg
          have hszb : grids_sized (ginit walls nwi) := grids_sized_ginit hsz
          by_cases h1 : nw.num_tiles ≤ nti
          · rw [if_pos h1] at heq
            exact absurd heq (by simp)
          · rw [if_neg h1] at heq
            rcases htile : tile_at (ginit walls nwi) nwi nti with _ | mid
            · simp only [htile] at heq
              exact absurd heq (by simp)
            · simp only [htile, Option.some.injEq, Prod.mk.injEq] at heq
              obtain ⟨hA, hB, -⟩ := heq
              subst hA
              refine ⟨hB.symm, hbpt, sm_inv_of_pointwise hbpt hszb hinv, mid, ?_, ?_⟩
              · rw [← hbpt]
                exact htile
              · intro hcon
                have htw : tile_at walls nwi nti = some mid := by
                  rw [← hbpt]
                  exact htile
                obtain ⟨y, hy, hyid, hyw, hyt⟩ := htm _ _ _ htw
                have hys : y = sm := hinj y hy sm hmem (by rw [hyid, hcon])
                rw [hys] at hyw
                exact hnw hyw
        · simp only [hnwg] at heq
          by_cases h1 : nw.num_tiles ≤ nti
          · rw [if_pos h1] at heq
            exact absurd heq (by simp)
          · rw [if_neg h1] at heq
            rcases htile : tile_at walls nwi nti with _ | mid
            · simp only [htile] at heq
              exact absurd heq (by simp)
            · simp only [htile, Option.some.injEq, Prod.mk.injEq] at heq
              obtain ⟨hA, hB, -⟩ := heq
              subst hA
              refine ⟨hB.symm, fun a b => rfl,
                sm_inv_of_pointwise (fun a b => rfl) hsz hinv, mid, rfl, ?_⟩
              intro hcon
              obtain ⟨y, hy, hyid, hyw, hyt⟩ := htm _ _ _ htile
              have hys : y = sm := hinj y hy sm hmem (by rw [hyid, hcon])
              rw [hys] at hyw
              exact hnw hyw
    · intro walls2 sm2 heq
      unfold move_sm_to_new_triangle at heq
      simp only [hw0, hg0] at heq
      rcases hnwq : walls[nwi]? with _ | nw
      · simp only [hnwq] at heq
        exact absurd heq (by simp)
      · simp only [hnwq] at heq
        rcases hnwg : nw.grid with _ | gn
        · simp only [hnwg] at heq
          have hbpt := tile_at_ginit hnwq hnwg
          have hszb : grids_sized (ginit walls nwi) := grids_sized_ginit hsz
          by_cases h1 : nw.num_tiles ≤ nti
          · rw [if_pos h1] at heq
            exact absurd heq (by simp)
          · rw [if_neg h1] at heq
            rcases htile : tile_at (ginit walls nwi) nwi nti with _ | mid
            · simp only [htile, Option.some.injEq, Prod.mk.injEq] at heq
              obtain ⟨hA, hB, -⟩ := heq
              subst hA
              subst hB
              have hdef1 : ∃ w g, (ginit walls nwi)[nwi]? = some w ∧
                  w.grid = some g ∧ nti < g.length := by
                refine ⟨{ nw with grid := some (List.replicate nw.num_tiles none) },
                  List.replicate nw.num_tiles none, ?_, rfl, ?_⟩
                · unfold ginit
                  rw [lupd_getElem?, if_pos rfl, hnwq]
                  rfl
                · rw [List.length_replicate]
                  exact Nat.lt_of_not_le h1
              refine ⟨rfl, rfl, rfl, rfl, ?_, ?_, ?_⟩
              · obtain ⟨w2, g2, hw2, hg2, hlt2⟩ := tile_defined_wupd hdef1
                exact tile_at_wupd_self hw2 hg2 hlt2
              · rw [tile_at_wupd_other (Or.inl hnw)]
                have hod : tile_at (ginit walls nwi) sm.wall_index sm.grid_tile_index
                    = some sm.id := by
                  rw [hbpt]
                  exact holdtile
                obtain ⟨w1, g1, hw1, hg1, hlt1⟩ := tile_at_some_defined hod
                exact tile_at_wupd_self hw1 hg1 hlt1
              · exact sm_inv_move hbpt hszb hinv hmem rfl rfl rfl
                  (fun hc => hnw hc.1) (by rw [← hbpt]; exact htile) hdef1
            · simp only [htile] at heq
              exact absurd heq (by simp)
        · simp only [hnwg] at heq
          by_cases h1 : nw.num_tiles ≤ nti
          · rw [if_pos h1] at heq
            exact absurd heq (by simp)
          · rw [if_neg h1] at heq
            rcases htile : tile_at walls nwi nti with _ | mid
            · simp only [htile, Option.some.injEq, Prod.mk.injEq] at heq
              obtain ⟨hA, hB, -⟩ := heq
              subst hA
              subst hB
              have hdef1 : ∃ w g, walls[nwi]? = some w ∧
                  w.grid = some g ∧ nti < g.length :=
                ⟨nw, gn, hnwq, hnwg, by
                  rw [hsz nwi nw gn hnwq hnwg]
                  exact Nat.lt_of_not_le h1⟩
              refine ⟨rfl, rfl, rfl, rfl, ?_, ?_, ?_⟩
              · obtain ⟨w2, g2, hw2, hg2, hlt2⟩ := tile_defined_wupd hdef1
                exact tile_at_wupd_self hw2 hg2 hlt2
              · rw [tile_at_wupd_other (Or.inl hnw)]
                exact tile_at_wupd_self hw0 hg0 hlt0
              · exact sm_inv_move (fun a b => rfl) hsz hinv hmem rfl rfl rfl
                  (fun hc => hnw hc.1) htile hdef1
            · simp only [htile] at heq
              exact absurd heq (by simp)

/-- Concrete surface molecule for exercising the move helpers. -/
def sm6 : SMol := ⟨7, 0, 0, ⟨0, 0⟩⟩

/-- Concrete single-wall world: one wall with a one-tile initialized grid
occupied by molecule 7. -/
def walls6 : List WallG := [⟨1, some [some 7]⟩]

/-- Concrete molecule list for the C6 witness. -/
def ms6 : List SMol := [sm6]

/-- `sm6` after the same-tile move to uv position `(1/2, 1/2)`. -/
def sm6b : SMol := ⟨7, 0, 0, ⟨1/2, 1/2⟩⟩

/-- Witness for C6: the invariant holds for the concrete one-wall world and
the same-triangle move of molecule 7 to `(1/2, 1/2)` keeps it. -/
theorem C6_witness :
    sm6 ∈ ms6 ∧ sm_inv walls6 ms6 ∧
    (sm6b.id = sm6.id ∧ sm6b.wall_index = sm6.wall_index ∧
     sm6b.grid_tile_index = 0 ∧ sm6b.pos = ⟨1/2, 1/2⟩ ∧
     tile_at walls6 sm6b.wall_index sm6b.grid_tile_index = some sm6b.id ∧
     ((0 : ℕ) ≠ sm6.grid_tile_index → tile_at walls6 sm6.wall_index sm6.grid_tile_index = none) ∧
     sm_inv walls6 (replace_mol ms6 sm6 sm6b)) := by
  have hm : sm6 ∈ ms6 := by simp [ms6]
  have hi : sm_inv walls6 ms6 := by
    refine ⟨?_, ?_, ?_, ?_⟩
    · intro x hx
      simp only [ms6, List.mem_singleton] at hx
      subst hx
      rfl
    · intro a b mid h
      rcases a with _ | a2
      · rcases b with _ | b2
        · refine ⟨sm6, by simp [ms6], ?_, rfl, rfl⟩
          have hmid : some (7 : ℕ) = some mid := h
          exact Option.some.inj hmid
        · simp only [tile_at, walls6, List.getElem?_cons_zero,
            getD_eq_getElem?_getD] at h
          simp at h
      · simp only [tile_at, walls6, List.getElem?_cons_succ,
          List.getElem?_nil] at h
        simp at h
    · intro x hx y hy hxy
      simp only [ms6, List.mem_singleton] at hx hy
      rw [hx, hy]
    · intro wi w g hw hg
      rcases wi with _ | wi2
      · simp only [walls6, List.getElem?_cons_zero, Option.some.injEq] at hw
        subst hw
        simp only [Option.some.injEq] at hg
        subst hg
        rfl
      · simp only [walls6, List.getElem?_cons_succ, List.getElem?_nil] at hw
        exact absurd hw (by simp)
  exact ⟨hm, hi,
    (C6_move_sm_grid_invariant walls6 ms6 sm6 ⟨1/2, 1/2⟩ 0 0 hm hi).2.1
      walls6 sm6b rfl⟩
